import Mathlib

/-!
# SimpleGraphicsEngine: a shallow embedding

Embedding of `src/SimpleGraphicsEngine.cpp` (namespace `SGE`):

* `ShaderManager` : the name-keyed program registry (`loadShader`, `getShader`);
* `Object3D` and its subclasses: the scene graph (`addChild`, `removeChild`, `render`);
* `SimpleGraphicsEngine::initialize`;
* `FBO::useFBO` and `FBO3D::useFBO` over the part of the GL context they touch.

Objects live in a store indexed by pointers; GL and console effects are
recorded as explicit traces.  Matrices and floats are type parameters: the
product `M * T` is `glm`'s `operator*`, taken as a `Mul` instance.
-/

namespace SGE

/-! ## Definitions -/

/-! ### Program registry -/

/-- Handles of GL objects (`GLuint`). -/
abbrev GLuint := Nat

/-- State touched by `ShaderManager`: the `std::map<std::string, GLuint>` member
`shader_program_IDs` as an association list with unique keys (iteration order is
not modelled), and the records written to `std::cout`, one entry per
`std::endl`-terminated output statement. -/
structure ShaderManager where
  shader_program_IDs : List (String × GLuint)
  cout : List String

/-- Lookup `std::map::find`: the value stored under a key, if any. -/
def mapFind (m : List (String × GLuint)) (name : String) : Option GLuint :=
  match m with
  | [] => none
  | (k, v) :: rest => if k = name then some v else mapFind rest name

/-- Insertion `std::map::insert`: inserts the pair only when the key is absent;
an existing entry is left as it is. -/
def mapInsert (m : List (String × GLuint)) (name : String) (v : GLuint) :
    List (String × GLuint) :=
  match mapFind m name with
  | some _ => m
  | none => m ++ [(name, v)]

/-- Subscript `std::map::operator[]`: returns the stored value; when the key is
absent a value-initialised entry (`0`) is inserted first. -/
def mapSubscript (m : List (String × GLuint)) (name : String) :
    List (String × GLuint) × GLuint :=
  match mapFind m name with
  | some v => (m, v)
  | none => (m ++ [(name, 0)], 0)

/-- Method `ShaderManager::loadShader`.  `program` is the handle returned by
`ShaderLoader::loadShaders` for the five stage sources (an external
collaborator, evaluated before the insertion). -/
def ShaderManager.loadShader (sm : ShaderManager) (name : String) (program : GLuint) :
    ShaderManager :=
  { sm with shader_program_IDs := mapInsert sm.shader_program_IDs name program }

/-- The text of the diagnostic written by `getShader`, without the final `std::endl`. -/
def getShaderDiagnostic (name : String) : String :=
  "ERROR : This name, " ++ name ++ " is not a valid shader program name!"

/-- Method `ShaderManager::getShader`: returns the new state and the handle. -/
def ShaderManager.getShader (sm : ShaderManager) (name : String) : ShaderManager × GLuint :=
  let r := mapSubscript sm.shader_program_IDs name
  let program_ID := r.2
  if program_ID = 0 then
    ({ shader_program_IDs := r.1, cout := sm.cout ++ [getShaderDiagnostic name] }, program_ID)
  else
    ({ shader_program_IDs := r.1, cout := sm.cout }, program_ID)

/-! ### Engine initialisation -/

/-- Split of a text at its line feeds: the lines in order, the last one being
the text after the final line feed. -/
def splitLines : List Char → List (List Char)
  | [] => [[]]
  | c :: cs =>
    if c = Char.ofNat 10 then [] :: splitLines cs
    else
      match splitLines cs with
      | [] => [[c]]
      | l :: ls => (c :: l) :: ls

/-- The console lines one record of `cout` occupies: its text is written as it
is and then terminated by `std::endl`, so every line feed inside the text ends a
line as well. -/
def recordLines (record : String) : List (List Char) :=
  splitLines record.data

/-- Results of the three external setup calls made by
`SimpleGraphicsEngine::initialize`: the `int` returned by `glfwInit`
(`GLFW_FALSE = 0` on failure), the window pointer returned by `glfwCreateWindow`
(`0` is `NULL`), and the code returned by `glewInit` (`GLEW_OK = 0`). -/
structure SetupOutcome where
  glfwInit : Int
  glfwCreateWindow : Nat
  glewInit : Nat

/-- Conversion of an `int` to `bool` as done by `return` in a function returning `bool`. -/
def boolOfInt (i : Int) : Bool := i != 0

/-- The constant `GLEW_OK`. -/
def GLEW_OK : Nat := 0

/-- Method `SimpleGraphicsEngine::initialize`: the returned `bool`.  The second
component records whether `glfwTerminate` was called on the way out. -/
def SimpleGraphicsEngine.initialize (o : SetupOutcome) : Bool × Bool :=
  if o.glfwInit = 0 then
    (boolOfInt (-1), false)
  else if o.glfwCreateWindow = 0 then
    (false, true)
  else if o.glewInit ≠ GLEW_OK then
    (false, false)
  else
    (true, false)

/-! ### Render targets -/

/-- Two's complement wrap of a 32-bit `GLint` result. -/
def wrap32 (v : Int) : Int := (v + 2147483648) % 4294967296 - 2147483648

/-- The part of the GL context read and written by `useFBO`:
`GL_FRAMEBUFFER_BINDING`, `GL_VIEWPORT` as `(x, y, width, height)`, the active
texture unit, and the 2D and 3D texture bound to each unit. -/
structure GLContext where
  framebufferBinding : Int
  viewport : Int × Int × Int × Int
  activeTexture : Nat
  texture2D : Nat → GLuint
  texture3D : Nat → GLuint

/-- The GL context together with the file-level statics `lastw` and `lasth`. -/
structure FBOState where
  gl : GLContext
  lastw : Int
  lasth : Int

/-- Members of `FBO`. -/
structure FBO where
  width_ : Int
  height_ : Int
  fb_ : GLuint
  texid_ : GLuint
  rb_ : GLuint

/-- Members of `FBO3D`. -/
structure FBO3D where
  size_ : Int
  fb_ : GLuint
  texid_ : GLuint
  rb_ : GLuint

/-- Driver call `glViewport`: the viewport register takes the requested rectangle. -/
def glViewport (s : FBOState) (x y w h : Int) : FBOState :=
  { s with gl := { s.gl with viewport := (x, y, w, h) } }

/-- Driver call `glBindFramebuffer(GL_FRAMEBUFFER, fb)`. -/
def glBindFramebuffer (s : FBOState) (fb : GLuint) : FBOState :=
  { s with gl := { s.gl with framebufferBinding := (fb : Int) } }

/-- Driver call `glActiveTexture(GL_TEXTURE0 + unit)`. -/
def glActiveTexture (s : FBOState) (unit : Nat) : FBOState :=
  { s with gl := { s.gl with activeTexture := unit } }

/-- Driver call `glBindTexture(GL_TEXTURE_2D, tex)` on the active unit. -/
def glBindTexture2D (s : FBOState) (tex : GLuint) : FBOState :=
  { s with gl := { s.gl with
      texture2D := fun u => if u = s.gl.activeTexture then tex else s.gl.texture2D u } }

/-- Driver call `glBindTexture(GL_TEXTURE_3D, tex)` on the active unit. -/
def glBindTexture3D (s : FBOState) (tex : GLuint) : FBOState :=
  { s with gl := { s.gl with
      texture3D := fun u => if u = s.gl.activeTexture then tex else s.gl.texture3D u } }

/-- The first block of both `useFBO` variants: when the default framebuffer is
bound, the viewport is queried and `lastw`, `lasth` are refreshed from it. -/
def refreshLastSize (s : FBOState) : FBOState :=
  let curfbo := s.gl.framebufferBinding
  if curfbo = 0 then
    let viewport := s.gl.viewport
    let w := wrap32 (viewport.2.2.1 - viewport.1)
    let h := wrap32 (viewport.2.2.2 - viewport.2.1)
    if 0 < w ∧ 0 < h ∧ w < 65536 ∧ h < 65536 then
      { s with lastw := wrap32 (viewport.2.2.1 - viewport.1),
               lasth := wrap32 (viewport.2.2.2 - viewport.2.1) }
    else s
  else s

/-- Static method `FBO::useFBO`; a null pointer is `none`. -/
def FBO.useFBO (s : FBOState) (out in1 in2 : Option FBO) : FBOState :=
  let s := refreshLastSize s
  let s := match out with
    | some o => glViewport s 0 0 o.width_ o.height_
    | none => glViewport s 0 0 s.lastw s.lasth
  let s := match out with
    | some o => glViewport (glBindFramebuffer s o.fb_) 0 0 o.width_ o.height_
    | none => glBindFramebuffer s 0
  let s := glActiveTexture s 1
  let s := match in2 with
    | some i => glBindTexture2D s i.texid_
    | none => glBindTexture2D s 0
  let s := glActiveTexture s 0
  match in1 with
  | some i => glBindTexture2D s i.texid_
  | none => glBindTexture2D s 0

/-- Static method `FBO3D::useFBO`; a null pointer is `none`. -/
def FBO3D.useFBO (s : FBOState) (out in1 in2 : Option FBO3D) : FBOState :=
  let s := refreshLastSize s
  let s := match out with
    | some o => glViewport s 0 0 o.size_ o.size_
    | none => glViewport s 0 0 s.lastw s.lasth
  let s := match out with
    | some o => glViewport (glBindFramebuffer s o.fb_) 0 0 o.size_ o.size_
    | none => glBindFramebuffer s 0
  let s := glActiveTexture s 1
  let s := match in2 with
    | some i => glBindTexture3D s i.texid_
    | none => glBindTexture3D s 0
  let s := glActiveTexture s 0
  match in1 with
  | some i => glBindTexture3D s i.texid_
  | none => glBindTexture3D s 0

/-! ### Scene graph -/

/-- Object pointers (`Object3D*`). -/
abbrev Ptr := Nat

/-- Dynamic class of a node; it selects the override of the virtual `render`. -/
inductive Kind where
  | object3D
  | triangleMesh
  | perspectiveCamera
  | orthoCamera
  | lightSource
  deriving DecidableEq

/-- A scene node: the members of `Object3D` (`transform_matrix_`, `children`)
together with the members its subclasses add (`TriangleMesh`: the GL buffer
names and `elements_`; cameras: `window_` and `projection_transform_matrix_`;
`LightSource`: `intensity_` and `color_`).  `Mat` is `glm::mat4`, `F` is `float`. -/
structure Object3D (Mat F : Type) where
  kind : Kind
  transform_matrix_ : Mat
  children : List Ptr
  vertex_array_ID_ : GLuint
  vertex_buffer_ : GLuint
  normal_buffer_ : GLuint
  element_buffer_ : GLuint
  elements_ : List Nat
  window_ : Nat
  projection_transform_matrix_ : Mat
  intensity_ : F
  color_ : F × F × F

/-- The object store: every pointer designates a node. -/
abbrev Heap (Mat F : Type) := Ptr → Object3D Mat F

/-- Store update at one pointer. -/
def Heap.set {Mat F : Type} (h : Heap Mat F) (p : Ptr) (o : Object3D Mat F) : Heap Mat F :=
  fun q => if q = p then o else h q

/-- The erase-remove statement of `removeChild` on one node:
`children.erase(std::remove(children.begin(), children.end(), child), children.end())`. -/
def eraseChild {Mat F : Type} (o : Object3D Mat F) (child : Ptr) : Object3D Mat F :=
  { o with children := o.children.filter (fun c => c != child) }

/-- Method `Object3D::removeChild` with a recursion budget.  With `none` as the
position the call starts at the erase-remove statement; with `some i` it is at
the head of the `for` loop with loop variable `i`, and reads `children.size()`
and `children[i]` from the current store.  `none` as result: budget exhausted. -/
def removeChildFrom {Mat F : Type} :
    Nat → Heap Mat F → Ptr → Ptr → Option Nat → Option (Heap Mat F)
  | 0, _, _, _, _ => none
  | fuel + 1, h, self, child, none =>
      removeChildFrom fuel (h.set self (eraseChild (h self) child)) self child (some 0)
  | fuel + 1, h, self, child, some i =>
      match (h self).children[i]? with
      | none => some h
      | some c =>
        match removeChildFrom fuel h c child none with
        | none => none
        | some h1 => removeChildFrom fuel h1 self child (some (i + 1))

/-- Method `Object3D::removeChild(child)` called on `self`. -/
def Object3D.removeChild {Mat F : Type} (fuel : Nat) (h : Heap Mat F) (self child : Ptr) :
    Option (Heap Mat F) :=
  removeChildFrom fuel h self child none

/-- GL calls issued by the `render` overrides.  `glGetUniformLocation(program, name)`
is folded into the uniform upload that uses it. -/
inductive GLCall (Mat F : Type) where
  | useProgram (program : GLuint)
  | uniformMatrix4fv (program : GLuint) (name : String) (value : Mat)
  | uniform1f (program : GLuint) (name : String) (value : F)
  | uniform3f (program : GLuint) (name : String) (x y z : F)
  | bindVertexArray (vao : GLuint)
  | enableVertexAttribArray (index : Nat)
  | bindArrayBuffer (buffer : GLuint)
  | vertexAttribPointer (index size : Nat)
  | bindElementArrayBuffer (buffer : GLuint)
  | drawElements (count : Nat)
  | disableVertexAttribArray (index : Nat)
  deriving DecidableEq

/-- Trace entries of a traversal.  `call d p M program`: the virtual `render` is
invoked on node `p` with arguments `M`, `program`, at call depth `d`.
`gl d c`: the invocation at depth `d` issues the GL call `c` itself. -/
inductive Event (Mat F : Type) where
  | call (depth : Nat) (node : Ptr) (M : Mat) (program : GLuint)
  | gl (depth : Nat) (c : GLCall Mat F)
  deriving DecidableEq

/-- Call depth of a trace entry. -/
def Event.depth {Mat F : Type} : Event Mat F → Nat
  | .call d _ _ _ => d
  | .gl d _ => d

/-- The node a trace entry invokes `render` on, if it is an invocation. -/
def Event.node? {Mat F : Type} : Event Mat F → Option Ptr
  | .call _ p _ _ => some p
  | .gl _ _ => none

/-- The `render` invocations made at depth `k`, in trace order. -/
def directCalls {Mat F : Type} (k : Nat) (tr : List (Event Mat F)) : List (Ptr × Mat × GLuint) :=
  tr.filterMap (fun e =>
    match e with
    | .call d p M prog => if d = k then some (p, M, prog) else none
    | .gl _ _ => none)

/-- The GL calls issued by the invocation at depth `k` itself, in trace order. -/
def ownEffects {Mat F : Type} (k : Nat) (tr : List (Event Mat F)) : List (GLCall Mat F) :=
  tr.filterMap (fun e =>
    match e with
    | .call _ _ _ _ => none
    | .gl d c => if d = k then some c else none)

/-- External collaborators of the camera overrides: `glfwGetWindowSize` and the
projection formulas `glm::perspective(45.0f, float(width)/height, 0.1f, 100.0f)`
and `glm::ortho(-aspect, aspect, -1.0f, 1.0f, -100.0f, 100.0f)` as functions of
the window size. -/
structure Env (Mat : Type) where
  glfwGetWindowSize : Nat → Int × Int
  perspective : Int → Int → Mat
  ortho : Int → Int → Mat

/-- A result of a traversal: the store afterwards and the trace. -/
abbrev RenderResult (Mat F : Type) := Option (Heap Mat F × List (Event Mat F))

/-- The loop of `Object3D::render` over the child list `cs`: `call h c` is the
virtual call `(*iter)->render(M * transform_matrix_, program_ID)` on child `c`. -/
def renderChildren {Mat F : Type} (call : Heap Mat F → Ptr → RenderResult Mat F) :
    List Ptr → Heap Mat F → RenderResult Mat F
  | [], h => some (h, [])
  | c :: cs, h =>
    match call h c with
    | none => none
    | some (h1, t1) =>
      match renderChildren call cs h1 with
      | none => none
      | some (h2, t2) => some (h2, t1 ++ t2)

/-- Method `Object3D::render` executed by the invocation at depth `d` on `self`.
`virt` is the virtual dispatch.  The child list is the one at loop entry (no
`render` writes a child list, see `render_spec`); the matrix
`M * transform_matrix_` is recomputed for each child. -/
def Object3D.render {Mat F : Type} [Mul Mat]
    (virt : Nat → Heap Mat F → Ptr → Mat → GLuint → RenderResult Mat F)
    (d : Nat) (h : Heap Mat F) (self : Ptr) (M : Mat) (program_ID : GLuint) : RenderResult Mat F :=
  renderChildren (fun h1 c => virt (d + 1) h1 c (M * (h1 self).transform_matrix_) program_ID)
    (h self).children h

/-- The GL calls of `TriangleMesh::render` after the base traversal. -/
def meshEffects {Mat F : Type} [Mul Mat] (o : Object3D Mat F) (M : Mat) (program_ID : GLuint) :
    List (GLCall Mat F) :=
  [ .useProgram program_ID,
    .uniformMatrix4fv program_ID "M" (M * o.transform_matrix_),
    .bindVertexArray o.vertex_array_ID_,
    .enableVertexAttribArray 0,
    .bindArrayBuffer o.vertex_buffer_,
    .vertexAttribPointer 0 3,
    .enableVertexAttribArray 1,
    .bindArrayBuffer o.normal_buffer_,
    .vertexAttribPointer 1 3,
    .bindElementArrayBuffer o.element_buffer_,
    .drawElements o.elements_.length,
    .disableVertexAttribArray 0,
    .disableVertexAttribArray 1 ]

/-- Method `TriangleMesh::render`. -/
def TriangleMesh.render {Mat F : Type} [Mul Mat]
    (virt : Nat → Heap Mat F → Ptr → Mat → GLuint → RenderResult Mat F)
    (d : Nat) (h : Heap Mat F) (self : Ptr) (M : Mat) (program_ID : GLuint) : RenderResult Mat F :=
  match Object3D.render virt d h self M program_ID with
  | none => none
  | some (h1, t1) => some (h1, t1 ++ (meshEffects (h1 self) M program_ID).map (Event.gl d))

/-- The GL calls of `AbstractCamera::render` after the base traversal. -/
def cameraEffects {Mat F : Type} [Mul Mat] (o : Object3D Mat F) (M : Mat) (program_ID : GLuint) :
    List (GLCall Mat F) :=
  [ .useProgram program_ID,
    .uniformMatrix4fv program_ID "V" (M * o.transform_matrix_),
    .uniformMatrix4fv program_ID "P" o.projection_transform_matrix_ ]

/-- Method `AbstractCamera::render`. -/
def AbstractCamera.render {Mat F : Type} [Mul Mat]
    (virt : Nat → Heap Mat F → Ptr → Mat → GLuint → RenderResult Mat F)
    (d : Nat) (h : Heap Mat F) (self : Ptr) (M : Mat) (program_ID : GLuint) : RenderResult Mat F :=
  match Object3D.render virt d h self (M * (h self).transform_matrix_) program_ID with
  | none => none
  | some (h1, t1) => some (h1, t1 ++ (cameraEffects (h1 self) M program_ID).map (Event.gl d))

/-- Method `PerspectiveCamera::render`. -/
def PerspectiveCamera.render {Mat F : Type} [Mul Mat] (env : Env Mat)
    (virt : Nat → Heap Mat F → Ptr → Mat → GLuint → RenderResult Mat F)
    (d : Nat) (h : Heap Mat F) (self : Ptr) (M : Mat) (program_ID : GLuint) : RenderResult Mat F :=
  let size := env.glfwGetWindowSize (h self).window_
  let h0 := h.set self
    { h self with projection_transform_matrix_ := env.perspective size.1 size.2 }
  AbstractCamera.render virt d h0 self M program_ID

/-- Method `OrthoCamera::render`. -/
def OrthoCamera.render {Mat F : Type} [Mul Mat] (env : Env Mat)
    (virt : Nat → Heap Mat F → Ptr → Mat → GLuint → RenderResult Mat F)
    (d : Nat) (h : Heap Mat F) (self : Ptr) (M : Mat) (program_ID : GLuint) : RenderResult Mat F :=
  let size := env.glfwGetWindowSize (h self).window_
  let h0 := h.set self
    { h self with projection_transform_matrix_ := env.ortho size.1 size.2 }
  AbstractCamera.render virt d h0 self M program_ID

/-- The GL calls of `LightSource::render`. -/
def lightEffects {Mat F : Type} (o : Object3D Mat F) (program_ID : GLuint) :
    List (GLCall Mat F) :=
  [ .useProgram program_ID,
    .uniform1f program_ID "lightIntensity" o.intensity_,
    .uniform3f program_ID "lightColor" o.color_.1 o.color_.2.1 o.color_.2.2 ]

/-- Method `LightSource::render`: the base traversal is commented out in the source. -/
def LightSource.render {Mat F : Type}
    (d : Nat) (h : Heap Mat F) (self : Ptr) (program_ID : GLuint) : RenderResult Mat F :=
  some (h, (lightEffects (h self) program_ID).map (Event.gl d))

/-- The virtual call `p->render(M, program_ID)` made at call depth `d`, with a
recursion budget: the trace starts with the invocation itself, followed by what
the override selected by the dynamic class of `p` does.  `none`: budget exhausted. -/
def render {Mat F : Type} [Mul Mat] (env : Env Mat) :
    Nat → Nat → Heap Mat F → Ptr → Mat → GLuint → RenderResult Mat F
  | 0, _, _, _, _, _ => none
  | fuel + 1, d, h, p, M, program_ID =>
    match (match (h p).kind with
      | .object3D => Object3D.render (render env fuel) d h p M program_ID
      | .triangleMesh => TriangleMesh.render (render env fuel) d h p M program_ID
      | .perspectiveCamera => PerspectiveCamera.render env (render env fuel) d h p M program_ID
      | .orthoCamera => OrthoCamera.render env (render env fuel) d h p M program_ID
      | .lightSource => LightSource.render d h p program_ID) with
    | none => none
    | some (h1, tr) => some (h1, Event.call d p M program_ID :: tr)

/-! ### Predicates used in the statements and proofs -/

/-- The child relation of a store. -/
def childrenOf {Mat F : Type} (h : Heap Mat F) : Ptr → List Ptr := fun p => (h p).children

/-- Reachability along child lists: `Reach ch p n` when `n` is `p` or a descendant of `p`. -/
inductive Reach (ch : Ptr → List Ptr) : Ptr → Ptr → Prop where
  | refl (p : Ptr) : Reach ch p p
  | step {p c n : Ptr} : c ∈ ch p → Reach ch c n → Reach ch p n

/-- A node graph is acyclic: the nodes can be ranked so that every child ranks
strictly below its parent.  No ranked graph has a cycle (`Acyclic.no_cycle`),
and every finite store without a cycle has a ranking
(`acyclic_of_finite_of_no_cycle`). -/
def Acyclic {Mat F : Type} (h : Heap Mat F) : Prop :=
  ∃ rank : Ptr → Nat, ∀ p c, c ∈ (h p).children → rank c < rank p

/-- Reachability along child lists that never steps onto `X`: the nodes
`removeChild(X)` descends to. -/
inductive Avoid (ch : Ptr → List Ptr) (X : Ptr) : Ptr → Ptr → Prop where
  | refl (p : Ptr) : Avoid ch X p p
  | step {p c n : Ptr} : c ∈ ch p → c ≠ X → Avoid ch X c n → Avoid ch X p n

/-- Invariant of the store during `removeChild(X)` started on `h0`: every node
is either as in `h0` or has had `X` erased from its child list. -/
def ErasedSome {Mat F : Type} (h0 : Heap Mat F) (X : Ptr) (h : Heap Mat F) : Prop :=
  ∀ n, h n = h0 n ∨ h n = eraseChild (h0 n) X

/-- What a terminating run `removeChild(X)` on `p` from store `h` produces: the
result `h1` is returned for every budget from `N` on, the nodes it descends to
have `X` erased, and all other nodes are as in `h`. -/
def RemoveRun {Mat F : Type} (h0 : Heap Mat F) (X : Ptr) (h : Heap Mat F) (p : Ptr)
    (pos : Option Nat) (visited : Ptr → Prop) : Prop :=
  ∃ (N : Nat) (h1 : Heap Mat F),
    (∀ f, N ≤ f → removeChildFrom f h p X pos = some h1) ∧
    (∀ n, visited n → h1 n = eraseChild (h0 n) X) ∧
    (∀ n, ¬ visited n → h1 n = h n)

/-- Two stores agree except possibly on `projection_transform_matrix_` fields:
the only member a traversal writes. -/
def SameShape {Mat F : Type} (h h1 : Heap Mat F) : Prop :=
  ∀ n, ∃ m, h1 n = { h n with projection_transform_matrix_ := m }

/-- A trace entry lies inside the invocation at depth `d`: a GL call at depth
`d` or deeper, or a `render` invocation strictly deeper. -/
def Event.inside {Mat F : Type} (d : Nat) : Event Mat F → Prop
  | .call d1 _ _ _ => d + 1 ≤ d1
  | .gl d1 _ => d ≤ d1

/-- What one virtual `render` call guarantees about its result: the store keeps
its shape, the trace starts with the invocation, everything after it lies
inside the invocation, and every node invoked is reachable from `p`. -/
def RenderSpec {Mat F : Type} (d : Nat) (h : Heap Mat F) (p : Ptr) (M : Mat) (prog : GLuint)
    (h1 : Heap Mat F) (tr : List (Event Mat F)) : Prop :=
  SameShape h h1 ∧ ∃ body, tr = Event.call d p M prog :: body ∧
    (∀ e ∈ body, e.inside d) ∧
    (∀ e ∈ body, ∀ q, e.node? = some q → Reach (childrenOf h) p q)

/-- Every returning call of a dispatch function meets `RenderSpec`. -/
def VirtOK {Mat F : Type}
    (virt : Nat → Heap Mat F → Ptr → Mat → GLuint → RenderResult Mat F) : Prop :=
  ∀ d h p M prog h1 tr, virt d h p M prog = some (h1, tr) → RenderSpec d h p M prog h1 tr

/-- The override selected by the dynamic class of `p`, as dispatched by `render`. -/
def dispatch {Mat F : Type} [Mul Mat] (env : Env Mat) (fuel d : Nat) (h : Heap Mat F) (p : Ptr)
    (M : Mat) (prog : GLuint) : RenderResult Mat F :=
  match (h p).kind with
  | .object3D => Object3D.render (render env fuel) d h p M prog
  | .triangleMesh => TriangleMesh.render (render env fuel) d h p M prog
  | .perspectiveCamera => PerspectiveCamera.render env (render env fuel) d h p M prog
  | .orthoCamera => OrthoCamera.render env (render env fuel) d h p M prog
  | .lightSource => LightSource.render d h p prog

/-! ### Concrete inputs -/

/-- Matrices of the concrete scenes: 4x4 matrices with integer entries, given
by rows, whose products are computed exactly, and the two projection matrices
of the cameras, whose entries are left symbolic. -/
inductive SymMat where
  | int (rows : List (List Int))
  | perspective (width height : Int)
  | ortho (width height : Int)
  | prod (a b : SymMat)
  deriving DecidableEq

/-- Product of two 4x4 integer matrices given by rows. -/
def intMul (a b : List (List Int)) : List (List Int) :=
  a.map (fun row => (List.range 4).map (fun j =>
    ((List.range 4).map (fun k => row.getD k 0 * (b.getD k []).getD j 0)).sum))

/-- Matrix product on `SymMat`. -/
def SymMat.mul : SymMat → SymMat → SymMat
  | .int a, .int b => .int (intMul a b)
  | .int a, .perspective w h => .prod (.int a) (.perspective w h)
  | .int a, .ortho w h => .prod (.int a) (.ortho w h)
  | .int a, .prod b c => .prod (.int a) (.prod b c)
  | .perspective w h, b => .prod (.perspective w h) b
  | .ortho w h, b => .prod (.ortho w h) b
  | .prod a c, b => .prod (.prod a c) b

instance : Mul SymMat := ⟨SymMat.mul⟩

/-- The identity matrix. -/
def identity4 : SymMat :=
  .int [[1, 0, 0, 0], [0, 1, 0, 0], [0, 0, 1, 0], [0, 0, 0, 1]]

/-- Translation along the z axis by `t`. -/
def translateZ (t : Int) : SymMat :=
  .int [[1, 0, 0, 0], [0, 1, 0, 0], [0, 0, 1, t], [0, 0, 0, 1]]

/-- The view matrix set by the `AbstractCamera` constructor,
`glm::lookAt((0,0,3), (0,0,-1), (0,1,0))`: the translation by `(0, 0, -3)`. -/
def defaultView : SymMat := translateZ (-3)

/-- The collaborators of the concrete scenes: a 720 x 480 window. -/
def sceneEnv : Env SymMat :=
  { glfwGetWindowSize := fun _ => (720, 480),
    perspective := SymMat.perspective,
    ortho := SymMat.ortho }

/-- A base node without children, with identity transform; light members as
set by the `LightSource` constructor. -/
def plainNode : Object3D SymMat Int :=
  { kind := Kind.object3D, transform_matrix_ := identity4, children := [],
    vertex_array_ID_ := 0, vertex_buffer_ := 0, normal_buffer_ := 0, element_buffer_ := 0,
    elements_ := [], window_ := 1, projection_transform_matrix_ := identity4,
    intensity_ := 5, color_ := (1, 1, 1) }

/-- A graph in which node 1 occurs twice under node 0 and twice under node 3,
itself a child of node 0; node 1 has the child 4. -/
def dagHeap : Heap SymMat Int := fun p =>
  match p with
  | 0 => { plainNode with children := [1, 2, 1, 3] }
  | 1 => { plainNode with children := [4] }
  | 3 => { plainNode with kind := Kind.triangleMesh, children := [1, 1] }
  | _ => plainNode

/-- Ranks of the nodes of `dagHeap`. -/
def dagRank : Ptr → Nat := fun p =>
  match p with
  | 0 => 3
  | 1 => 1
  | 3 => 2
  | _ => 0

/-- A scene: node 0 is a perspective camera with the default view and the child
1; node 1 is a mesh of three indices, translated by 2 along z, with the child 2;
node 2 is a light with the child 3; all other nodes are plain. -/
def sceneHeap : Heap SymMat Int := fun p =>
  match p with
  | 0 => { plainNode with kind := Kind.perspectiveCamera, transform_matrix_ := defaultView,
                          children := [1] }
  | 1 => { plainNode with kind := Kind.triangleMesh, transform_matrix_ := translateZ 2,
                          children := [2], vertex_array_ID_ := 1, vertex_buffer_ := 1,
                          normal_buffer_ := 2, element_buffer_ := 3, elements_ := [0, 1, 2] }
  | 2 => { plainNode with kind := Kind.lightSource, children := [3] }
  | _ => plainNode

/-- Ranks of the nodes of `sceneHeap`. -/
def sceneRank : Ptr → Nat := fun p =>
  match p with
  | 0 => 3
  | 1 => 2
  | 2 => 1
  | _ => 0

/-- A state in which a default-framebuffer size of 720 x 480 was recorded earlier
and the default framebuffer is now bound with an empty 0 x 0 viewport. -/
def emptyViewportState : FBOState :=
  { gl := { framebufferBinding := 0, viewport := (0, 0, 0, 0), activeTexture := 0,
            texture2D := fun _ => 0, texture3D := fun _ => 0 },
    lastw := 720, lasth := 480 }

/-- A 256 x 256 render target with framebuffer name 1. -/
def target256 : FBO :=
  { width_ := 256, height_ := 256, fb_ := 1, texid_ := 1, rb_ := 1 }

/-- A registry holding the single program `"P1"` with handle 3. -/
def registryP1 : ShaderManager :=
  { shader_program_IDs := [("P1", 3)], cout := [] }

/-- The default framebuffer bound with the viewport `(0, 0, 720, 480)`; nothing
recorded in the cache yet. -/
def windowState : FBOState :=
  { gl := { framebufferBinding := 0, viewport := (0, 0, 720, 480), activeTexture := 0,
            texture2D := fun _ => 0, texture3D := fun _ => 0 },
    lastw := 0, lasth := 0 }

/-- Framebuffer 1 bound with the viewport `(0, 0, 256, 256)`; 720 x 480 cached. -/
def offscreenState : FBOState :=
  { gl := { framebufferBinding := 1, viewport := (0, 0, 256, 256), activeTexture := 0,
            texture2D := fun _ => 0, texture3D := fun _ => 0 },
    lastw := 720, lasth := 480 }

/-! ## Theorems -/

theorem mapFind_append_fresh (m : List (String × GLuint)) (name : String) (v : GLuint)
    (hm : mapFind m name = none) : mapFind (m ++ [(name, v)]) name = some v := by
  induction m with
  | nil => simp [mapFind]
  | cons kv rest ih =>
    obtain ⟨k, w⟩ := kv
    by_cases hk : k = name
    · simp [mapFind, hk] at hm
    · simp only [mapFind, hk, if_false] at hm
      simp [mapFind, hk, ih hm]

theorem mapInsert_of_present (m : List (String × GLuint)) (name : String) (v w : GLuint)
    (hm : mapFind m name = some v) : mapInsert m name w = m := by
  simp [mapInsert, hm]

theorem getShader_fst_of_absent (sm : ShaderManager) (name : String)
    (hm : mapFind sm.shader_program_IDs name = none) :
    mapFind (sm.getShader name).1.shader_program_IDs name = some 0 := by
  simp [ShaderManager.getShader, mapSubscript, hm, mapFind_append_fresh]

theorem getShader_snd_of_present (sm : ShaderManager) (name : String) (v : GLuint)
    (hm : mapFind sm.shader_program_IDs name = some v) : (sm.getShader name).2 = v := by
  unfold ShaderManager.getShader
  simp only [mapSubscript, hm]
  split <;> rfl

theorem getShaderDiagnostic_contains (name : String) :
    name.data <:+: (getShaderDiagnostic name).data := by
  refine ⟨"ERROR : This name, ".data, " is not a valid shader program name!".data, ?_⟩
  simp [getShaderDiagnostic, String.data_append]

/-- C2 (evaluation of the code): `loadShader` stores the program with
`std::map::insert`, which keeps an entry that already exists.  When `name` is
already a key with value `v`, the next `getShader(name)` returns `v` and not the
new handle; when `getShader(name)` ran before the load on an unknown `name`, it
entered `name` with handle `0`, and after the load `getShader(name)` still
returns `0`.  Only for a `name` that is not yet a key does the next
`getShader(name)` return the loaded handle. -/
theorem loadShader_keeps_existing_entry (sm : ShaderManager) (name : String) (h : GLuint) :
    (∀ v, mapFind sm.shader_program_IDs name = some v →
        ((sm.loadShader name h).getShader name).2 = v) ∧
    (mapFind sm.shader_program_IDs name = none →
        ((((sm.getShader name).1).loadShader name h).getShader name).2 = 0) ∧
    (mapFind sm.shader_program_IDs name = none →
        ((sm.loadShader name h).getShader name).2 = h) := by
  refine ⟨?_, ?_, ?_⟩
  · intro v hv
    apply getShader_snd_of_present
    simp [ShaderManager.loadShader, mapInsert_of_present _ _ _ _ hv, hv]
  · intro hm
    apply getShader_snd_of_present
    have h0 := getShader_fst_of_absent sm name hm
    simp [ShaderManager.loadShader, mapInsert_of_present _ _ _ _ h0, h0]
  · intro hm
    apply getShader_snd_of_present
    simp [ShaderManager.loadShader, mapInsert, hm, mapFind_append_fresh]

/-- Records written by `getShader(name)`: none when `name` is registered with a
non-zero handle, which is returned; exactly one, the diagnostic for `name`, when
`name` is not registered, and `0` is returned. -/
theorem getShader_record (sm : ShaderManager) (name : String) :
    (∀ v, mapFind sm.shader_program_IDs name = some v → v ≠ 0 →
        (sm.getShader name).2 = v ∧ (sm.getShader name).1.cout = sm.cout) ∧
    (mapFind sm.shader_program_IDs name = none →
        (sm.getShader name).2 = 0 ∧
        (sm.getShader name).1.cout = sm.cout ++ [getShaderDiagnostic name]) := by
  constructor
  · intro v hv hne
    simp [ShaderManager.getShader, mapSubscript, hv, hne]
  · intro hm
    simp [ShaderManager.getShader, mapSubscript, hm]

theorem splitLines_of_no_line_feed (l : List Char) (hl : Char.ofNat 10 ∉ l) :
    splitLines l = [l] := by
  induction l with
  | nil => rfl
  | cons c cs ih =>
    have hc : c ≠ Char.ofNat 10 := fun e => hl (e ▸ List.mem_cons_self _ _)
    have hcs : Char.ofNat 10 ∉ cs := fun hm => hl (List.mem_cons_of_mem _ hm)
    simp only [splitLines, hc, if_false, ih hcs]

theorem getShaderDiagnostic_single_line (name : String) (hname : Char.ofNat 10 ∉ name.data) :
    recordLines (getShaderDiagnostic name) = [(getShaderDiagnostic name).data] := by
  apply splitLines_of_no_line_feed
  simp only [getShaderDiagnostic, String.data_append, List.mem_append, not_or]
  exact ⟨⟨by decide, hname⟩, by decide⟩

/-- C3, counterexample: for the unregistered name made of `a`, a line feed and
`b`, `getShader` returns `0` and its one diagnostic record occupies two console
lines, none of which contains the name. -/
theorem getShader_line_feed_counterexample :
    mapFind registryP1.shader_program_IDs "a\nb" = none ∧
    (registryP1.getShader "a\nb").2 = 0 ∧
    (registryP1.getShader "a\nb").1.cout = registryP1.cout ++ [getShaderDiagnostic "a\nb"] ∧
    recordLines (getShaderDiagnostic "a\nb")
      = ["ERROR : This name, a".data, "b is not a valid shader program name!".data] ∧
    (recordLines (getShaderDiagnostic "a\nb")).length ≠ 1 ∧
    ∀ l ∈ recordLines (getShaderDiagnostic "a\nb"), ¬ ("a\nb".data <:+: l) := by
  refine ⟨by decide, by decide, by decide, by decide, by decide, ?_⟩
  decide

/-- C3, amended: for every registry and every `name` without a line feed,
`getShader(name)` returns the handle stored under `name` and writes nothing when
`name` is registered with a non-zero handle; when `name` is not registered it
returns `0` and writes exactly one record, which occupies exactly one console
line, and that line contains `name`. -/
theorem getShader_single_line (sm : ShaderManager) (name : String)
    (hname : Char.ofNat 10 ∉ name.data) :
    (∀ v, mapFind sm.shader_program_IDs name = some v → v ≠ 0 →
        (sm.getShader name).2 = v ∧ (sm.getShader name).1.cout = sm.cout) ∧
    (mapFind sm.shader_program_IDs name = none →
        (sm.getShader name).2 = 0 ∧
        ∃ record line, (sm.getShader name).1.cout = sm.cout ++ [record] ∧
          recordLines record = [line] ∧ name.data <:+: line) := by
  refine ⟨(getShader_record sm name).1, ?_⟩
  intro hm
  obtain ⟨h0, hcout⟩ := (getShader_record sm name).2 hm
  exact ⟨h0, getShaderDiagnostic name, (getShaderDiagnostic name).data, hcout,
    getShaderDiagnostic_single_line name hname, getShaderDiagnostic_contains name⟩

/-- C7 (evaluation of the code): when `glfwInit` fails, `initialize` executes
`return -1`, which converts to `true`; on the two later failure paths it returns
`false`, and it returns `true` when all three steps succeed. -/
theorem initialize_result (o : SetupOutcome) :
    (o.glfwInit = 0 → ( SimpleGraphicsEngine.initialize o).1 = true) ∧
    (o.glfwInit ≠ 0 → o.glfwCreateWindow = 0 → ( SimpleGraphicsEngine.initialize o).1 = false) ∧
    (o.glfwInit ≠ 0 → o.glfwCreateWindow ≠ 0 → o.glewInit ≠ GLEW_OK →
        ( SimpleGraphicsEngine.initialize o).1 = false) ∧
    (o.glfwInit ≠ 0 → o.glfwCreateWindow ≠ 0 → o.glewInit = GLEW_OK →
        ( SimpleGraphicsEngine.initialize o).1 = true) := by
  refine ⟨?_, ?_, ?_, ?_⟩
  · intro h
    simp [ SimpleGraphicsEngine.initialize, h, boolOfInt]
  · intro h1 h2
    simp [ SimpleGraphicsEngine.initialize, h1, h2]
  · intro h1 h2 h3
    simp [ SimpleGraphicsEngine.initialize, h1, h2, h3]
  · intro h1 h2 h3
    simp [ SimpleGraphicsEngine.initialize, h1, h2, h3]

theorem wrap32_of_small (v : Int) (h0 : 0 ≤ v) (h1 : v < 65536) : wrap32 v = v := by
  unfold wrap32
  omega

theorem useFBO_lastw (s : FBOState) (out in1 in2 : Option FBO) :
    (FBO.useFBO s out in1 in2).lastw = (refreshLastSize s).lastw ∧
    (FBO.useFBO s out in1 in2).lasth = (refreshLastSize s).lasth := by
  cases out <;> cases in1 <;> cases in2 <;>
    simp [FBO.useFBO, glViewport, glBindFramebuffer, glActiveTexture, glBindTexture2D]

theorem useFBO3D_lastw (s : FBOState) (out in1 in2 : Option FBO3D) :
    (FBO3D.useFBO s out in1 in2).lastw = (refreshLastSize s).lastw ∧
    (FBO3D.useFBO s out in1 in2).lasth = (refreshLastSize s).lasth := by
  cases out <;> cases in1 <;> cases in2 <;>
    simp [FBO3D.useFBO, glViewport, glBindFramebuffer, glActiveTexture, glBindTexture3D]

theorem useFBO_viewport_some (s : FBOState) (o : FBO) (in1 in2 : Option FBO) :
    (FBO.useFBO s (some o) in1 in2).gl.viewport = (0, 0, o.width_, o.height_) ∧
    (FBO.useFBO s (some o) in1 in2).gl.framebufferBinding = (o.fb_ : Int) := by
  cases in1 <;> cases in2 <;>
    simp [FBO.useFBO, glViewport, glBindFramebuffer, glActiveTexture, glBindTexture2D]

theorem useFBO3D_viewport_some (s : FBOState) (o : FBO3D) (in1 in2 : Option FBO3D) :
    (FBO3D.useFBO s (some o) in1 in2).gl.viewport = (0, 0, o.size_, o.size_) ∧
    (FBO3D.useFBO s (some o) in1 in2).gl.framebufferBinding = (o.fb_ : Int) := by
  cases in1 <;> cases in2 <;>
    simp [FBO3D.useFBO, glViewport, glBindFramebuffer, glActiveTexture, glBindTexture3D]

theorem useFBO_viewport_none (s : FBOState) (in1 in2 : Option FBO) :
    (FBO.useFBO s none in1 in2).gl.viewport =
      (0, 0, (refreshLastSize s).lastw, (refreshLastSize s).lasth) := by
  cases in1 <;> cases in2 <;>
    simp [FBO.useFBO, glViewport, glBindFramebuffer, glActiveTexture, glBindTexture2D]

theorem useFBO3D_viewport_none (s : FBOState) (in1 in2 : Option FBO3D) :
    (FBO3D.useFBO s none in1 in2).gl.viewport =
      (0, 0, (refreshLastSize s).lastw, (refreshLastSize s).lasth) := by
  cases in1 <;> cases in2 <;>
    simp [FBO3D.useFBO, glViewport, glBindFramebuffer, glActiveTexture, glBindTexture3D]

theorem refreshLastSize_of_bound (s : FBOState) (h : s.gl.framebufferBinding ≠ 0) :
    refreshLastSize s = s := by
  simp [refreshLastSize, h]

theorem refreshLastSize_of_default (s : FBOState) (w h : Int)
    (hb : s.gl.framebufferBinding = 0) (hv : s.gl.viewport = (0, 0, w, h))
    (hw0 : 0 < w) (hw1 : w < 65536) (hh0 : 0 < h) (hh1 : h < 65536) :
    (refreshLastSize s).lastw = w ∧ (refreshLastSize s).lasth = h := by
  have ew : wrap32 w = w := wrap32_of_small w (le_of_lt hw0) hw1
  have eh : wrap32 h = h := wrap32_of_small h (le_of_lt hh0) hh1
  simp [refreshLastSize, hb, hv, ew, eh, hw0, hw1, hh0, hh1]

theorem refreshLastSize_of_rejected (s : FBOState) (w h : Int)
    (hb : s.gl.framebufferBinding = 0) (hv : s.gl.viewport = (0, 0, w, h))
    (hw : 0 ≤ w) (hh : 0 ≤ h) (hw2 : w < 2147483648) (hh2 : h < 2147483648)
    (hrej : ¬ (0 < w ∧ w < 65536 ∧ 0 < h ∧ h < 65536)) :
    refreshLastSize s = s := by
  by_cases c : 0 < wrap32 w ∧ 0 < wrap32 h ∧ wrap32 w < 65536 ∧ wrap32 h < 65536
  · exfalso
    apply hrej
    obtain ⟨c1, c2, c3, c4⟩ := c
    unfold wrap32 at c1 c2 c3 c4
    omega
  · simp [refreshLastSize, hb, hv, c]

/-- C4, counterexample: with the default framebuffer bound at size 0 x 0 (and
720 x 480 recorded before), binding the target and then calling
`useFBO(null, ...)` leaves the viewport at 720 x 480, not at 0 x 0. -/
theorem useFBO_restore_counterexample :
    emptyViewportState.gl.framebufferBinding = 0 ∧
    emptyViewportState.gl.viewport = (0, 0, 0, 0) ∧
    (FBO.useFBO (FBO.useFBO emptyViewportState (some target256) none none)
        none none none).gl.viewport = (0, 0, 720, 480) ∧
    (FBO.useFBO (FBO.useFBO emptyViewportState (some target256) none none)
        none none none).gl.viewport ≠ (0, 0, 0, 0) := by
  refine ⟨rfl, rfl, ?_, ?_⟩ <;>
    simp [FBO.useFBO, refreshLastSize, glViewport, glBindFramebuffer, glActiveTexture,
      glBindTexture2D, emptyViewportState, target256, wrap32]

/-- C4, amended: after `useFBO(out, in1, in2)` the viewport is
`(0, 0, out.width, out.height)` when `out` is non-null (`size x size` for the 3D
variant) and `(0, 0, lastw, lasth)` with the cached size when `out` is null.
When the default framebuffer is bound with viewport `(0, 0, W, H)`,
`0 < W, H < 65536`, binding a target `A` with a non-zero framebuffer name and
then calling `useFBO(null, ...)` leaves the viewport at `(0, 0, W, H)`. -/
theorem useFBO_viewport (s : FBOState) :
    (∀ (o : FBO) in1 in2, (FBO.useFBO s (some o) in1 in2).gl.viewport
        = (0, 0, o.width_, o.height_)) ∧
    (∀ (o : FBO3D) in1 in2, (FBO3D.useFBO s (some o) in1 in2).gl.viewport
        = (0, 0, o.size_, o.size_)) ∧
    (∀ in1 in2, (FBO.useFBO s none in1 in2).gl.viewport
        = (0, 0, (FBO.useFBO s none in1 in2).lastw, (FBO.useFBO s none in1 in2).lasth)) ∧
    (∀ in1 in2, (FBO3D.useFBO s none in1 in2).gl.viewport
        = (0, 0, (FBO3D.useFBO s none in1 in2).lastw, (FBO3D.useFBO s none in1 in2).lasth)) ∧
    (∀ (W H : Int), s.gl.framebufferBinding = 0 → s.gl.viewport = (0, 0, W, H) →
        0 < W → W < 65536 → 0 < H → H < 65536 →
        (∀ (A : FBO) in1 in2 j1 j2, A.fb_ ≠ 0 →
          (FBO.useFBO (FBO.useFBO s (some A) in1 in2) none j1 j2).gl.viewport = (0, 0, W, H)) ∧
        (∀ (A : FBO3D) in1 in2 j1 j2, A.fb_ ≠ 0 →
          (FBO3D.useFBO (FBO3D.useFBO s (some A) in1 in2) none j1 j2).gl.viewport
            = (0, 0, W, H))) := by
  refine ⟨fun o in1 in2 => (useFBO_viewport_some s o in1 in2).1,
    fun o in1 in2 => (useFBO3D_viewport_some s o in1 in2).1, ?_, ?_, ?_⟩
  · intro in1 in2
    rw [useFBO_viewport_none, (useFBO_lastw s none in1 in2).1, (useFBO_lastw s none in1 in2).2]
  · intro in1 in2
    rw [useFBO3D_viewport_none, (useFBO3D_lastw s none in1 in2).1,
      (useFBO3D_lastw s none in1 in2).2]
  · intro W H hb hv hw0 hw1 hh0 hh1
    have hr := refreshLastSize_of_default s W H hb hv hw0 hw1 hh0 hh1
    constructor
    · intro A in1 in2 j1 j2 hA
      have hbound : (FBO.useFBO s (some A) in1 in2).gl.framebufferBinding ≠ 0 := by
        rw [(useFBO_viewport_some s A in1 in2).2]
        exact_mod_cast hA
      rw [useFBO_viewport_none, refreshLastSize_of_bound _ hbound,
        (useFBO_lastw s (some A) in1 in2).1, (useFBO_lastw s (some A) in1 in2).2, hr.1, hr.2]
    · intro A in1 in2 j1 j2 hA
      have hbound : (FBO3D.useFBO s (some A) in1 in2).gl.framebufferBinding ≠ 0 := by
        rw [(useFBO3D_viewport_some s A in1 in2).2]
        exact_mod_cast hA
      rw [useFBO3D_viewport_none, refreshLastSize_of_bound _ hbound,
        (useFBO3D_lastw s (some A) in1 in2).1, (useFBO3D_lastw s (some A) in1 in2).2, hr.1, hr.2]

/-- C8, counterexample: a `useFBO` call made while the default framebuffer is
bound with viewport `(0, 0, 0, 0)` does not update the cache: it still holds
720 x 480 afterwards, not the viewport size 0 x 0. -/
theorem useFBO_cache_counterexample :
    emptyViewportState.gl.framebufferBinding = 0 ∧
    emptyViewportState.gl.viewport = (0, 0, 0, 0) ∧
    (FBO.useFBO emptyViewportState none none none).lastw = 720 ∧
    (FBO.useFBO emptyViewportState none none none).lasth = 480 ∧
    ¬ ((FBO.useFBO emptyViewportState none none none).lastw = 0 ∧
       (FBO.useFBO emptyViewportState none none none).lasth = 0) := by
  refine ⟨rfl, rfl, ?_, ?_, ?_⟩ <;>
    simp [FBO.useFBO, refreshLastSize, glViewport, glBindFramebuffer, glActiveTexture,
      glBindTexture2D, emptyViewportState, wrap32]

/-- C8, amended: for a `useFBO` call (2D or 3D) made while the default
framebuffer is bound with viewport `(0, 0, w, h)`: when `0 < w < 65536` and
`0 < h < 65536` the cache holds `(w, h)` afterwards; for any other size (a
non-negative 32-bit `GLint` pair) the cache is left unchanged.  When a non-default framebuffer is bound at
call time the cache is left unchanged. -/
theorem useFBO_cache (s : FBOState) :
    (∀ (w h : Int), s.gl.framebufferBinding = 0 → s.gl.viewport = (0, 0, w, h) →
        0 < w → w < 65536 → 0 < h → h < 65536 →
        (∀ out in1 in2, (FBO.useFBO s out in1 in2).lastw = w ∧
          (FBO.useFBO s out in1 in2).lasth = h) ∧
        (∀ out in1 in2, (FBO3D.useFBO s out in1 in2).lastw = w ∧
          (FBO3D.useFBO s out in1 in2).lasth = h)) ∧
    (∀ (w h : Int), s.gl.framebufferBinding = 0 → s.gl.viewport = (0, 0, w, h) →
        0 ≤ w → 0 ≤ h → w < 2147483648 → h < 2147483648 → ¬ (0 < w ∧ w < 65536 ∧ 0 < h ∧ h < 65536) →
        (∀ out in1 in2, (FBO.useFBO s out in1 in2).lastw = s.lastw ∧
          (FBO.useFBO s out in1 in2).lasth = s.lasth) ∧
        (∀ out in1 in2, (FBO3D.useFBO s out in1 in2).lastw = s.lastw ∧
          (FBO3D.useFBO s out in1 in2).lasth = s.lasth)) ∧
    (s.gl.framebufferBinding ≠ 0 →
        (∀ out in1 in2, (FBO.useFBO s out in1 in2).lastw = s.lastw ∧
          (FBO.useFBO s out in1 in2).lasth = s.lasth) ∧
        (∀ out in1 in2, (FBO3D.useFBO s out in1 in2).lastw = s.lastw ∧
          (FBO3D.useFBO s out in1 in2).lasth = s.lasth)) := by
  refine ⟨?_, ?_, ?_⟩
  · intro w h hb hv hw0 hw1 hh0 hh1
    have hr := refreshLastSize_of_default s w h hb hv hw0 hw1 hh0 hh1
    constructor <;> intro out in1 in2
    · rw [(useFBO_lastw s out in1 in2).1, (useFBO_lastw s out in1 in2).2]
      exact hr
    · rw [(useFBO3D_lastw s out in1 in2).1, (useFBO3D_lastw s out in1 in2).2]
      exact hr
  · intro w h hb hv hw hh hw2 hh2 hrej
    have hr := refreshLastSize_of_rejected s w h hb hv hw hh hw2 hh2 hrej
    constructor <;> intro out in1 in2
    · rw [(useFBO_lastw s out in1 in2).1, (useFBO_lastw s out in1 in2).2, hr]
      exact ⟨rfl, rfl⟩
    · rw [(useFBO3D_lastw s out in1 in2).1, (useFBO3D_lastw s out in1 in2).2, hr]
      exact ⟨rfl, rfl⟩
  · intro hb
    have hr := refreshLastSize_of_bound s hb
    constructor <;> intro out in1 in2
    · rw [(useFBO_lastw s out in1 in2).1, (useFBO_lastw s out in1 in2).2, hr]
      exact ⟨rfl, rfl⟩
    · rw [(useFBO3D_lastw s out in1 in2).1, (useFBO3D_lastw s out in1 in2).2, hr]
      exact ⟨rfl, rfl⟩

theorem Avoid.reach {ch : Ptr → List Ptr} {X p n : Ptr} (a : Avoid ch X p n) : Reach ch p n := by
  induction a with
  | refl p => exact Reach.refl p
  | step hc _ _ ih => exact Reach.step hc ih

theorem Avoid.snoc {ch : Ptr → List Ptr} {X p n c : Ptr} (a : Avoid ch X p n)
    (hc : c ∈ ch n) (hne : c ≠ X) : Avoid ch X p c := by
  induction a with
  | refl p => exact Avoid.step hc hne (Avoid.refl c)
  | step hc1 hne1 _ ih => exact Avoid.step hc1 hne1 (ih hc)

theorem Avoid.target_ne {ch : Ptr → List Ptr} {X p n : Ptr} (a : Avoid ch X p n)
    (hp : p ≠ X) : n ≠ X := by
  induction a with
  | refl p => exact hp
  | step _ hne _ ih => exact ih hne

theorem Reach.avoid_or_through {ch : Ptr → List Ptr} (X : Ptr) {p n : Ptr} (a : Reach ch p n) :
    Avoid ch X p n ∨ Reach ch X n := by
  induction a with
  | refl p => exact Or.inl (Avoid.refl p)
  | @step p c n hc hr ih =>
    by_cases hX : c = X
    · exact Or.inr (hX ▸ hr)
    · exact ih.imp (fun a => Avoid.step hc hX a) id

theorem Reach.rank_le (ch : Ptr → List Ptr) {rank : Ptr → Nat}
    (hrank : ∀ p c, c ∈ ch p → rank c < rank p) {p n : Ptr} (a : Reach ch p n) :
    rank n ≤ rank p := by
  induction a with
  | refl p => exact le_refl _
  | step hc _ ih => exact le_trans ih (le_of_lt (hrank _ _ hc))

theorem Acyclic.no_cycle {Mat F : Type} {h : Heap Mat F} (hac : Acyclic h) (p c : Ptr)
    (hc : c ∈ (h p).children) : ¬ Reach (childrenOf h) c p := by
  obtain ⟨rank, hrank⟩ := hac
  intro hr
  have h1 := Reach.rank_le (childrenOf h) hrank hr
  have h2 := hrank p c hc
  omega

/-- In a store whose child pointers all lie below a bound `B`, the absence of
cycles gives a ranking: the rank of a node is the number of its proper
descendants.  With `Acyclic.no_cycle`, `Acyclic` is the absence of cycles for
every finite store. -/
theorem acyclic_of_finite_of_no_cycle {Mat F : Type} (h : Heap Mat F) (B : Nat)
    (hfin : ∀ p c, c ∈ (h p).children → c < B)
    (hno : ∀ p c, c ∈ (h p).children → ¬ Reach (childrenOf h) c p) : Acyclic h := by
  classical
  refine ⟨fun p => ((Finset.range B).filter
    (fun q => ∃ c, c ∈ (h p).children ∧ Reach (childrenOf h) c q)).card, ?_⟩
  intro p c hc
  apply Finset.card_lt_card
  rw [Finset.ssubset_iff_of_subset]
  · refine ⟨c, ?_, ?_⟩
    · rw [Finset.mem_filter, Finset.mem_range]
      exact ⟨hfin p c hc, c, hc, Reach.refl c⟩
    · rw [Finset.mem_filter]
      rintro ⟨_, c2, hc2, hr⟩
      exact hno c c2 hc2 hr
  · intro q hq
    rw [Finset.mem_filter] at hq ⊢
    obtain ⟨hqB, c2, hc2, hr⟩ := hq
    exact ⟨hqB, c, hc, Reach.step hc2 hr⟩

theorem eraseChild_children {Mat F : Type} (o : Object3D Mat F) (X : Ptr) :
    (eraseChild o X).children = o.children.filter (fun c => c != X) := rfl

theorem eraseChild_idem {Mat F : Type} (o : Object3D Mat F) (X : Ptr) :
    eraseChild (eraseChild o X) X = eraseChild o X := by
  simp [eraseChild]

theorem eraseChild_of_not_mem {Mat F : Type} (o : Object3D Mat F) (X : Ptr)
    (hX : X ∉ o.children) : eraseChild o X = o := by
  have hf : o.children.filter (fun c => c != X) = o.children := by
    rw [List.filter_eq_self]
    intro a ha
    have : a ≠ X := fun e => hX (e ▸ ha)
    simpa using this
  cases o
  simp only [eraseChild] at hf ⊢
  simp [hf]

theorem mem_eraseChild {Mat F : Type} (o : Object3D Mat F) (X c : Ptr) :
    c ∈ (eraseChild o X).children ↔ c ∈ o.children ∧ c ≠ X := by
  simp [eraseChild]

theorem Heap.set_same {Mat F : Type} (h : Heap Mat F) (p : Ptr) (o : Object3D Mat F) :
    h.set p o p = o := by
  simp [Heap.set]

theorem Heap.set_other {Mat F : Type} (h : Heap Mat F) (p q : Ptr) (o : Object3D Mat F)
    (hq : q ≠ p) : h.set p o q = h q := by
  simp [Heap.set, hq]

/-- More budget does not change a result of `removeChild`. -/
theorem removeChildFrom_succ {Mat F : Type} (X : Ptr) :
    ∀ (f : Nat) (h : Heap Mat F) (p : Ptr) (pos : Option Nat) (h1 : Heap Mat F),
      removeChildFrom f h p X pos = some h1 → removeChildFrom (f + 1) h p X pos = some h1 := by
  intro f
  induction f with
  | zero => intro h p pos h1 hr; simp [removeChildFrom] at hr
  | succ f ih =>
    intro h p pos h1 hr
    cases pos with
    | none =>
      rw [removeChildFrom] at hr ⊢
      exact ih _ _ _ _ hr
    | some i =>
      rw [removeChildFrom] at hr ⊢
      cases hc : (h p).children[i]? with
      | none => simpa [hc] using hr
      | some c =>
        simp only [hc] at hr ⊢
        cases hrec : removeChildFrom f h c X none with
        | none => simp [hrec] at hr
        | some h2 =>
          simp only [hrec] at hr
          rw [ih _ _ _ _ hrec]
          exact ih _ _ _ _ hr

theorem removeChildFrom_mono {Mat F : Type} (X : Ptr) (f g : Nat) (hfg : f ≤ g)
    (h : Heap Mat F) (p : Ptr) (pos : Option Nat) (h1 : Heap Mat F)
    (hr : removeChildFrom f h p X pos = some h1) : removeChildFrom g h p X pos = some h1 := by
  induction hfg with
  | refl => exact hr
  | step _ ih => exact removeChildFrom_succ X _ h p pos h1 ih

theorem removeChild_loop {Mat F : Type} (h0 : Heap Mat F) (X p : Ptr)
    (hnp : ∀ c, c ∈ (eraseChild (h0 p) X).children → ¬ Avoid (childrenOf h0) X c p)
    (ih : ∀ c, c ∈ (eraseChild (h0 p) X).children → ∀ h, ErasedSome h0 X h →
      RemoveRun h0 X h c none (Avoid (childrenOf h0) X c)) :
    ∀ (k i : Nat) (h : Heap Mat F), i + k = (eraseChild (h0 p) X).children.length →
      ErasedSome h0 X h → h p = eraseChild (h0 p) X →
      RemoveRun h0 X h p (some i) (fun n => ∃ j c, i ≤ j ∧
        (eraseChild (h0 p) X).children[j]? = some c ∧ Avoid (childrenOf h0) X c n) := by
  intro k
  induction k with
  | zero =>
    intro i h hik _ hp
    refine ⟨1, h, ?_, ?_, ?_⟩
    · intro f hf
      obtain ⟨f, rfl⟩ : ∃ g, f = g + 1 := ⟨f - 1, by omega⟩
      have hnone : (h p).children[i]? = none := by
        rw [hp]
        exact List.getElem?_eq_none (by omega)
      rw [removeChildFrom]
      simp [hnone]
    · rintro n ⟨j, c, hij, hj, _⟩
      have : (eraseChild (h0 p) X).children[j]? = none := List.getElem?_eq_none (by omega)
      rw [this] at hj
      cases hj
    · intro n _
      rfl
  | succ k ihk =>
    intro i h hik hinv hp
    have hlt : i < (eraseChild (h0 p) X).children.length := by omega
    have hci : (eraseChild (h0 p) X).children[i]? = some ((eraseChild (h0 p) X).children[i]) :=
      List.getElem?_eq_getElem hlt
    generalize (eraseChild (h0 p) X).children[i] = c at hci
    have hcmem : c ∈ (eraseChild (h0 p) X).children := List.getElem?_mem hci
    obtain ⟨N1, h1, hrun1, hvis1, hrest1⟩ := ih c hcmem h hinv
    have hinv1 : ErasedSome h0 X h1 := by
      intro n
      by_cases hv : Avoid (childrenOf h0) X c n
      · exact Or.inr (hvis1 n hv)
      · rw [hrest1 n hv]
        exact hinv n
    have hp1 : h1 p = eraseChild (h0 p) X := by
      rw [hrest1 p (hnp c hcmem)]
      exact hp
    obtain ⟨N2, h2, hrun2, hvis2, hrest2⟩ := ihk (i + 1) h1 (by omega) hinv1 hp1
    refine ⟨max N1 N2 + 1, h2, ?_, ?_, ?_⟩
    · intro f hf
      obtain ⟨f, rfl⟩ : ∃ g, f = g + 1 := ⟨f - 1, by omega⟩
      have hsome : (h p).children[i]? = some c := by
        rw [hp]
        exact hci
      rw [removeChildFrom]
      simp only [hsome, hrun1 f (by omega)]
      exact hrun2 f (by omega)
    · rintro n ⟨j, c2, hij, hj, hav⟩
      by_cases hlater : ∃ j c, i + 1 ≤ j ∧
          (eraseChild (h0 p) X).children[j]? = some c ∧ Avoid (childrenOf h0) X c n
      · exact hvis2 n hlater
      · rw [hrest2 n hlater]
        have hji : j = i := by
          by_contra hne
          exact hlater ⟨j, c2, by omega, hj, hav⟩
        subst hji
        rw [hci] at hj
        cases hj
        exact hvis1 n hav
    · intro n hn
      have hlater : ¬ ∃ j c, i + 1 ≤ j ∧
          (eraseChild (h0 p) X).children[j]? = some c ∧ Avoid (childrenOf h0) X c n := by
        rintro ⟨j, c2, hij, hj, hav⟩
        exact hn ⟨j, c2, by omega, hj, hav⟩
      rw [hrest2 n hlater]
      apply hrest1
      intro hav
      exact hn ⟨i, c, le_refl _, hci, hav⟩

theorem removeChild_node {Mat F : Type} (h0 : Heap Mat F) (X : Ptr) (rank : Ptr → Nat)
    (hrank : ∀ p c, c ∈ (h0 p).children → rank c < rank p)
    (p : Ptr) (h : Heap Mat F) (hinv : ErasedSome h0 X h)
    (ih : ∀ c, c ∈ (eraseChild (h0 p) X).children → ∀ h, ErasedSome h0 X h →
      RemoveRun h0 X h c none (Avoid (childrenOf h0) X c)) :
    RemoveRun h0 X h p none (Avoid (childrenOf h0) X p) := by
  have hnp : ∀ c, c ∈ (eraseChild (h0 p) X).children → ¬ Avoid (childrenOf h0) X c p := by
    intro c hc hav
    have h1 := Reach.rank_le (childrenOf h0) hrank hav.reach
    have h2 := hrank p c ((mem_eraseChild _ _ _).1 hc).1
    omega
  have herase : eraseChild (h p) X = eraseChild (h0 p) X := by
    rcases hinv p with e | e
    · rw [e]
    · rw [e, eraseChild_idem]
  have hinv1 : ErasedSome h0 X (h.set p (eraseChild (h p) X)) := by
    intro n
    by_cases hn : n = p
    · subst hn
      rw [Heap.set_same, herase]
      exact Or.inr rfl
    · rw [Heap.set_other _ _ _ _ hn]
      exact hinv n
  have hp1 : (h.set p (eraseChild (h p) X)) p = eraseChild (h0 p) X := by
    rw [Heap.set_same, herase]
  obtain ⟨N, h1, hrun, hvis, hrest⟩ :=
    removeChild_loop h0 X p hnp ih (eraseChild (h0 p) X).children.length 0 _
      (Nat.zero_add _) hinv1 hp1
  refine ⟨N + 1, h1, ?_, ?_, ?_⟩
  · intro f hf
    obtain ⟨f, rfl⟩ : ∃ g, f = g + 1 := ⟨f - 1, by omega⟩
    rw [removeChildFrom]
    exact hrun f (by omega)
  · intro n hav
    by_cases hsub : ∃ j c, 0 ≤ j ∧
        (eraseChild (h0 p) X).children[j]? = some c ∧ Avoid (childrenOf h0) X c n
    · exact hvis n hsub
    · rw [hrest n hsub]
      cases hav with
      | refl => exact hp1
      | step hc hne hav2 =>
        exfalso
        apply hsub
        obtain ⟨j, hj⟩ := List.getElem?_of_mem ((mem_eraseChild (h0 p) X _).2 ⟨hc, hne⟩)
        exact ⟨j, _, Nat.zero_le _, hj, hav2⟩
  · intro n hn
    have hsub : ¬ ∃ j c, 0 ≤ j ∧
        (eraseChild (h0 p) X).children[j]? = some c ∧ Avoid (childrenOf h0) X c n := by
      rintro ⟨j, c, _, hj, hav⟩
      have hc := (mem_eraseChild (h0 p) X c).1 (List.getElem?_mem hj)
      exact hn (Avoid.step hc.1 hc.2 hav)
    rw [hrest n hsub]
    apply Heap.set_other
    intro e
    subst e
    exact hn (Avoid.refl _)

theorem removeChild_run {Mat F : Type} (h0 : Heap Mat F) (X : Ptr) (rank : Ptr → Nat)
    (hrank : ∀ p c, c ∈ (h0 p).children → rank c < rank p) :
    ∀ (r : Nat) (p : Ptr), rank p ≤ r → ∀ h, ErasedSome h0 X h →
      RemoveRun h0 X h p none (Avoid (childrenOf h0) X p) := by
  intro r
  induction r with
  | zero =>
    intro p hp h hinv
    have hno : ∀ c, c ∈ (eraseChild (h0 p) X).children → False := by
      intro c hc
      have := hrank p c ((mem_eraseChild _ _ _).1 hc).1
      omega
    exact removeChild_node h0 X rank hrank p h hinv (fun c hc => (hno c hc).elim)
  | succ r ih =>
    intro p hp h hinv
    apply removeChild_node h0 X rank hrank p h hinv
    intro c hc h2 hinv2
    have := hrank p c ((mem_eraseChild _ _ _).1 hc).1
    exact ih c (by omega) h2 hinv2

/-- Summary of `removeChild(X)` called on `R` in an acyclic store `h` with
`X ≠ R`: a store `h1` that every sufficient budget returns, in which exactly the
nodes the call descends to have `X` erased. -/
theorem removeChild_result {Mat F : Type} (h : Heap Mat F) (R X : Ptr) (hac : Acyclic h) :
    ∃ (N : Nat) (h1 : Heap Mat F),
      (∀ f, N ≤ f → Object3D.removeChild f h R X = some h1) ∧
      (∀ f h2, Object3D.removeChild f h R X = some h2 → h2 = h1) ∧
      (∀ n, Avoid (childrenOf h) X R n → h1 n = eraseChild (h n) X) ∧
      (∀ n, ¬ Avoid (childrenOf h) X R n → h1 n = h n) := by
  obtain ⟨rank, hrank⟩ := hac
  obtain ⟨N, h1, hrun, hvis, hrest⟩ :=
    removeChild_run h X rank hrank (rank R) R (le_refl _) h (fun n => Or.inl rfl)
  refine ⟨N, h1, hrun, ?_, hvis, hrest⟩
  intro f h2 hf
  have e1 := removeChildFrom_mono X f (max f N) (le_max_left _ _) h R none h2 hf
  have e2 := hrun (max f N) (le_max_right _ _)
  unfold Object3D.removeChild at e2
  rw [e1] at e2
  exact Option.some.inj e2

/-- C10: in an acyclic store, `R.removeChild(X)` with `X ≠ R` terminates (every
budget from some `N` on returns the same store `h1`, and no budget returns
another one); afterwards every node reachable from `R` has its previous child
list with all occurrences of `X` filtered out (order kept) and is otherwise as
before, every node not reachable from `R` is unchanged, and `X` itself is
unchanged. -/
theorem removeChild_effect {Mat F : Type} (h : Heap Mat F) (R X : Ptr) (hne : X ≠ R)
    (hac : Acyclic h) :
    ∃ (N : Nat) (h1 : Heap Mat F),
      (∀ f, N ≤ f → Object3D.removeChild f h R X = some h1) ∧
      (∀ f h2, Object3D.removeChild f h R X = some h2 → h2 = h1) ∧
      (∀ n, Reach (childrenOf h) R n →
        h1 n = { h n with children := (h n).children.filter (fun c => c != X) }) ∧
      (∀ n, ¬ Reach (childrenOf h) R n → h1 n = h n) ∧
      h1 X = h X := by
  obtain ⟨N, h1, hrun, huniq, hvis, hrest⟩ := removeChild_result h R X hac
  refine ⟨N, h1, hrun, huniq, ?_, ?_, ?_⟩
  · intro n hr
    by_cases hav : Avoid (childrenOf h) X R n
    · exact hvis n hav
    · rw [hrest n hav]
      rcases hr.avoid_or_through X with a | hX
      · exact (hav a).elim
      · have hnot : X ∉ (h n).children := fun hmem => hac.no_cycle n X hmem hX
        exact (eraseChild_of_not_mem (h n) X hnot).symm
  · intro n hr
    exact hrest n (fun a => hr a.reach)
  · apply hrest
    intro a
    exact a.target_ne (Ne.symm hne) rfl

theorem SameShape.refl {Mat F : Type} (h : Heap Mat F) : SameShape h h :=
  fun n => ⟨(h n).projection_transform_matrix_, rfl⟩

theorem SameShape.trans {Mat F : Type} {h h1 h2 : Heap Mat F} (a : SameShape h h1)
    (b : SameShape h1 h2) : SameShape h h2 := by
  intro n
  obtain ⟨m1, e1⟩ := a n
  obtain ⟨m2, e2⟩ := b n
  exact ⟨m2, by rw [e2, e1]⟩

theorem SameShape.set_projection {Mat F : Type} (h : Heap Mat F) (p : Ptr) (m : Mat) :
    SameShape h (h.set p { h p with projection_transform_matrix_ := m }) := by
  intro n
  by_cases hn : n = p
  · subst hn
    exact ⟨m, by rw [Heap.set_same]⟩
  · exact ⟨(h n).projection_transform_matrix_, by rw [Heap.set_other _ _ _ _ hn]⟩

theorem SameShape.children {Mat F : Type} {h h1 : Heap Mat F} (a : SameShape h h1) (n : Ptr) :
    (h1 n).children = (h n).children := by
  obtain ⟨m, e⟩ := a n
  rw [e]

theorem SameShape.kind {Mat F : Type} {h h1 : Heap Mat F} (a : SameShape h h1) (n : Ptr) :
    (h1 n).kind = (h n).kind := by
  obtain ⟨m, e⟩ := a n
  rw [e]

theorem SameShape.transform {Mat F : Type} {h h1 : Heap Mat F} (a : SameShape h h1) (n : Ptr) :
    (h1 n).transform_matrix_ = (h n).transform_matrix_ := by
  obtain ⟨m, e⟩ := a n
  rw [e]

theorem SameShape.childrenOf {Mat F : Type} {h h1 : Heap Mat F} (a : SameShape h h1) :
    childrenOf h1 = childrenOf h :=
  funext (fun n => a.children n)

theorem SameShape.meshEffects {Mat F : Type} [Mul Mat] {h h1 : Heap Mat F} (a : SameShape h h1)
    (n : Ptr) (M : Mat) (prog : GLuint) :
    meshEffects (h1 n) M prog = meshEffects (h n) M prog := by
  obtain ⟨m, e⟩ := a n
  rw [e]
  rfl

theorem SameShape.lightEffects {Mat F : Type} {h h1 : Heap Mat F} (a : SameShape h h1)
    (n : Ptr) (prog : GLuint) :
    lightEffects (h1 n) prog = lightEffects (h n) prog := by
  obtain ⟨m, e⟩ := a n
  rw [e]
  rfl

theorem Event.inside_of_depth {Mat F : Type} (d : Nat) (e : Event Mat F)
    (he : d + 1 ≤ e.depth) : e.inside d := by
  cases e with
  | call d1 _ _ _ => exact he
  | gl d1 _ => exact Nat.le_of_succ_le he

theorem Event.depth_of_inside {Mat F : Type} (d : Nat) (e : Event Mat F)
    (he : e.inside d) : d ≤ e.depth := by
  cases e with
  | call d1 _ _ _ => exact Nat.le_of_succ_le he
  | gl d1 _ => exact he

theorem directCalls_append {Mat F : Type} (k : Nat) (t1 t2 : List (Event Mat F)) :
    directCalls k (t1 ++ t2) = directCalls k t1 ++ directCalls k t2 := by
  simp [directCalls, List.filterMap_append]

theorem ownEffects_append {Mat F : Type} (k : Nat) (t1 t2 : List (Event Mat F)) :
    ownEffects k (t1 ++ t2) = ownEffects k t1 ++ ownEffects k t2 := by
  simp [ownEffects, List.filterMap_append]

theorem directCalls_of_inside {Mat F : Type} (k : Nat) (t : List (Event Mat F))
    (ht : ∀ e ∈ t, e.inside k) : directCalls k t = [] := by
  induction t with
  | nil => rfl
  | cons e t ih =>
    have hrest := ih (fun e he => ht e (List.mem_cons_of_mem _ he))
    have he := ht e (List.mem_cons_self _ _)
    cases e with
    | call d1 q M prog =>
      have hne : d1 ≠ k := by
        have : k + 1 ≤ d1 := he
        omega
      simp only [directCalls, List.filterMap_cons, hne, if_false] at hrest ⊢
      exact hrest
    | gl d1 c =>
      simp only [directCalls, List.filterMap_cons] at hrest ⊢
      exact hrest

theorem directCalls_map_gl {Mat F : Type} (k d : Nat) (cs : List (GLCall Mat F)) :
    directCalls k (cs.map (Event.gl d)) = ([] : List (Ptr × Mat × GLuint)) := by
  induction cs with
  | nil => rfl
  | cons c cs ih =>
    simp only [directCalls, List.map_cons, List.filterMap_cons] at ih ⊢
    exact ih

theorem ownEffects_map_gl {Mat F : Type} (d : Nat) (cs : List (GLCall Mat F)) :
    ownEffects d (cs.map (Event.gl d)) = cs := by
  induction cs with
  | nil => rfl
  | cons c cs ih =>
    simp only [ownEffects, List.map_cons, List.filterMap_cons, if_true] at ih ⊢
    rw [ih]

theorem ownEffects_of_deeper {Mat F : Type} (k : Nat) (t : List (Event Mat F))
    (ht : ∀ e ∈ t, k + 1 ≤ e.depth) : ownEffects k t = [] := by
  induction t with
  | nil => rfl
  | cons e t ih =>
    have hrest := ih (fun e he => ht e (List.mem_cons_of_mem _ he))
    have he := ht e (List.mem_cons_self _ _)
    cases e with
    | call d1 q M prog =>
      simp only [ownEffects, List.filterMap_cons] at hrest ⊢
      exact hrest
    | gl d1 c =>
      have hne : d1 ≠ k := by
        have : k + 1 ≤ d1 := he
        omega
      simp only [ownEffects, List.filterMap_cons, hne, if_false] at hrest ⊢
      exact hrest

theorem renderChildren_spec {Mat F : Type} [Mul Mat]
    (virt : Nat → Heap Mat F → Ptr → Mat → GLuint → RenderResult Mat F) (hv : VirtOK virt)
    (d : Nat) (self : Ptr) (M : Mat) (prog : GLuint) (h : Heap Mat F) :
    ∀ (cs : List Ptr) (h0 h2 : Heap Mat F) (tr : List (Event Mat F)), SameShape h h0 →
      renderChildren (fun h1 c => virt (d + 1) h1 c (M * (h1 self).transform_matrix_) prog)
        cs h0 = some (h2, tr) →
      SameShape h h2 ∧ (∀ e ∈ tr, d + 1 ≤ e.depth) ∧
      directCalls (d + 1) tr = cs.map (fun c => (c, M * (h self).transform_matrix_, prog)) ∧
      (∀ e ∈ tr, ∀ q, e.node? = some q → ∃ c ∈ cs, Reach (childrenOf h) c q) := by
  intro cs
  induction cs with
  | nil =>
    intro h0 h2 tr hs hr
    simp only [renderChildren, Option.some.injEq, Prod.mk.injEq] at hr
    obtain ⟨rfl, rfl⟩ := hr
    exact ⟨hs, by simp, rfl, by simp⟩
  | cons c cs ih =>
    intro h0 h2 tr hs hr
    rw [renderChildren] at hr
    cases hcall : virt (d + 1) h0 c (M * (h0 self).transform_matrix_) prog with
    | none => simp [hcall] at hr
    | some r1 =>
      obtain ⟨h1, t1⟩ := r1
      simp only [hcall] at hr
      cases hrest : renderChildren
          (fun h1 c => virt (d + 1) h1 c (M * (h1 self).transform_matrix_) prog) cs h1 with
      | none => simp [hrest] at hr
      | some r2 =>
        obtain ⟨h3, t2⟩ := r2
        simp only [hrest, Option.some.injEq, Prod.mk.injEq] at hr
        obtain ⟨rfl, rfl⟩ := hr
        obtain ⟨hs1, body, rfl, hin, hreach⟩ := hv _ _ _ _ _ _ _ hcall
        have hs01 : SameShape h h1 := hs.trans hs1
        obtain ⟨hs3, hdep, hdc, hre⟩ := ih h1 h3 t2 hs01 hrest
        refine ⟨hs3, ?_, ?_, ?_⟩
        · intro e he
          rcases List.mem_append.1 he with he | he
          · rcases List.mem_cons.1 he with rfl | he
            · exact le_refl _
            · exact Event.depth_of_inside _ _ (hin e he)
          · exact hdep e he
        · rw [directCalls_append, hdc, hs.transform self]
          have hb : directCalls (d + 1) body = [] := directCalls_of_inside _ _ hin
          simp only [directCalls, List.filterMap_cons, if_true, List.map_cons] at hb ⊢
          rw [hb]
          rfl
        · intro e he q hq
          rcases List.mem_append.1 he with he | he
          · refine ⟨c, List.mem_cons_self _ _, ?_⟩
            rcases List.mem_cons.1 he with rfl | he
            · simp only [Event.node?, Option.some.injEq] at hq
              subst hq
              exact Reach.refl _
            · have := hreach e he q hq
              rwa [hs.childrenOf] at this
          · obtain ⟨c2, hc2, hr2⟩ := hre e he q hq
            exact ⟨c2, List.mem_cons_of_mem _ hc2, hr2⟩

theorem Object3D_render_spec {Mat F : Type} [Mul Mat]
    (virt : Nat → Heap Mat F → Ptr → Mat → GLuint → RenderResult Mat F) (hv : VirtOK virt)
    (d : Nat) (h : Heap Mat F) (self : Ptr) (M : Mat) (prog : GLuint)
    (h2 : Heap Mat F) (tr : List (Event Mat F))
    (hr : Object3D.render virt d h self M prog = some (h2, tr)) :
    SameShape h h2 ∧ (∀ e ∈ tr, d + 1 ≤ e.depth) ∧
    directCalls (d + 1) tr
      = (h self).children.map (fun c => (c, M * (h self).transform_matrix_, prog)) ∧
    (∀ e ∈ tr, ∀ q, e.node? = some q → Reach (childrenOf h) self q) := by
  obtain ⟨hs, hdep, hdc, hre⟩ :=
    renderChildren_spec virt hv d self M prog h _ h h2 tr (SameShape.refl h) hr
  refine ⟨hs, hdep, hdc, ?_⟩
  intro e he q hq
  obtain ⟨c, hc, hcq⟩ := hre e he q hq
  exact Reach.step hc hcq

theorem render_succ_eq {Mat F : Type} [Mul Mat] (env : Env Mat) (fuel d : Nat) (h : Heap Mat F)
    (p : Ptr) (M : Mat) (prog : GLuint) :
    render env (fuel + 1) d h p M prog =
      (dispatch env fuel d h p M prog).map (fun r => (r.1, Event.call d p M prog :: r.2)) := by
  rw [render]
  unfold dispatch
  cases hk : (h p).kind <;> simp only [] <;>
    (split <;> rename_i hd <;> simp [hd])

theorem render_some_iff {Mat F : Type} [Mul Mat] (env : Env Mat) (fuel d : Nat) (h : Heap Mat F)
    (p : Ptr) (M : Mat) (prog : GLuint) (h1 : Heap Mat F) (tr : List (Event Mat F)) :
    render env (fuel + 1) d h p M prog = some (h1, tr) ↔
      ∃ body, tr = Event.call d p M prog :: body ∧
        dispatch env fuel d h p M prog = some (h1, body) := by
  rw [render_succ_eq]
  cases hd : dispatch env fuel d h p M prog with
  | none => simp
  | some r =>
    obtain ⟨h2, body⟩ := r
    simp only [Option.map_some', Option.some.injEq, Prod.mk.injEq]
    constructor
    · rintro ⟨rfl, rfl⟩
      exact ⟨body, rfl, rfl, rfl⟩
    · rintro ⟨b, rfl, rfl, rfl⟩
      exact ⟨rfl, rfl⟩

theorem TriangleMesh_render_some {Mat F : Type} [Mul Mat]
    (virt : Nat → Heap Mat F → Ptr → Mat → GLuint → RenderResult Mat F)
    (d : Nat) (h : Heap Mat F) (p : Ptr) (M : Mat) (prog : GLuint)
    (h1 : Heap Mat F) (tr : List (Event Mat F))
    (hr : TriangleMesh.render virt d h p M prog = some (h1, tr)) :
    ∃ sub, Object3D.render virt d h p M prog = some (h1, sub) ∧
      tr = sub ++ (meshEffects (h1 p) M prog).map (Event.gl d) := by
  unfold TriangleMesh.render at hr
  cases ho : Object3D.render virt d h p M prog with
  | none => simp [ho] at hr
  | some r =>
    obtain ⟨h2, sub⟩ := r
    simp only [ho, Option.some.injEq, Prod.mk.injEq] at hr
    obtain ⟨rfl, rfl⟩ := hr
    exact ⟨sub, rfl, rfl⟩

theorem AbstractCamera_render_some {Mat F : Type} [Mul Mat]
    (virt : Nat → Heap Mat F → Ptr → Mat → GLuint → RenderResult Mat F)
    (d : Nat) (h : Heap Mat F) (p : Ptr) (M : Mat) (prog : GLuint)
    (h1 : Heap Mat F) (tr : List (Event Mat F))
    (hr : AbstractCamera.render virt d h p M prog = some (h1, tr)) :
    ∃ sub, Object3D.render virt d h p (M * (h p).transform_matrix_) prog = some (h1, sub) ∧
      tr = sub ++ (cameraEffects (h1 p) M prog).map (Event.gl d) := by
  unfold AbstractCamera.render at hr
  cases ho : Object3D.render virt d h p (M * (h p).transform_matrix_) prog with
  | none => simp [ho] at hr
  | some r =>
    obtain ⟨h2, sub⟩ := r
    simp only [ho, Option.some.injEq, Prod.mk.injEq] at hr
    obtain ⟨rfl, rfl⟩ := hr
    exact ⟨sub, rfl, rfl⟩

/-- Shape of a trace made of a base traversal followed by GL calls of the
invoking node itself. -/
theorem traversal_then_effects {Mat F : Type} (d : Nat) (sub : List (Event Mat F))
    (eff : List (GLCall Mat F)) (hdep : ∀ e ∈ sub, d + 1 ≤ e.depth) :
    (∀ e ∈ sub ++ eff.map (Event.gl d), e.inside d) ∧
    directCalls (d + 1) (sub ++ eff.map (Event.gl d)) = directCalls (d + 1) sub ∧
    ownEffects d (sub ++ eff.map (Event.gl d)) = eff := by
  refine ⟨?_, ?_, ?_⟩
  · intro e he
    rcases List.mem_append.1 he with he | he
    · exact Event.inside_of_depth _ _ (hdep e he)
    · obtain ⟨c, _, rfl⟩ := List.mem_map.1 he
      exact le_refl _
  · rw [directCalls_append, directCalls_map_gl, List.append_nil]
  · rw [ownEffects_append, ownEffects_of_deeper d sub hdep, ownEffects_map_gl, List.nil_append]

theorem node?_of_mem_append_gl {Mat F : Type} (d : Nat) (sub : List (Event Mat F))
    (eff : List (GLCall Mat F)) (e : Event Mat F) (he : e ∈ sub ++ eff.map (Event.gl d))
    (q : Ptr) (hq : e.node? = some q) : e ∈ sub := by
  rcases List.mem_append.1 he with he | he
  · exact he
  · obtain ⟨c, _, rfl⟩ := List.mem_map.1 he
    simp [Event.node?] at hq

/-- Every returning `render` call meets `RenderSpec`. -/
theorem render_spec {Mat F : Type} [Mul Mat] (env : Env Mat) :
    ∀ fuel, VirtOK (render (F := F) env fuel) := by
  intro fuel
  induction fuel with
  | zero =>
    intro d h p M prog h1 tr hr
    simp [render] at hr
  | succ f ih =>
    intro d h p M prog h1 tr hr
    obtain ⟨body, rfl, hd⟩ := (render_some_iff env f d h p M prog h1 _).1 hr
    unfold dispatch at hd
    cases hk : (h p).kind <;> simp only [hk] at hd
    · obtain ⟨hs, hdep, _, hre⟩ := Object3D_render_spec _ ih d h p M prog h1 body hd
      exact ⟨hs, body, rfl, fun e he => Event.inside_of_depth _ _ (hdep e he), hre⟩
    · obtain ⟨sub, ho, rfl⟩ := TriangleMesh_render_some _ d h p M prog h1 body hd
      obtain ⟨hs, hdep, _, hre⟩ := Object3D_render_spec _ ih d h p M prog h1 sub ho
      refine ⟨hs, _, rfl, (traversal_then_effects d sub _ hdep).1, ?_⟩
      intro e he q hq
      exact hre e (node?_of_mem_append_gl d sub _ e he q hq) q hq
    · obtain ⟨sub, ho, rfl⟩ := AbstractCamera_render_some _ d _ p M prog h1 body hd
      have hs0 := SameShape.set_projection h p
        (env.perspective (env.glfwGetWindowSize (h p).window_).1
          (env.glfwGetWindowSize (h p).window_).2)
      obtain ⟨hs, hdep, _, hre⟩ := Object3D_render_spec _ ih d _ p _ prog h1 sub ho
      refine ⟨hs0.trans hs, _, rfl, (traversal_then_effects d sub _ hdep).1, ?_⟩
      intro e he q hq
      have := hre e (node?_of_mem_append_gl d sub _ e he q hq) q hq
      rwa [hs0.childrenOf] at this
    · obtain ⟨sub, ho, rfl⟩ := AbstractCamera_render_some _ d _ p M prog h1 body hd
      have hs0 := SameShape.set_projection h p
        (env.ortho (env.glfwGetWindowSize (h p).window_).1
          (env.glfwGetWindowSize (h p).window_).2)
      obtain ⟨hs, hdep, _, hre⟩ := Object3D_render_spec _ ih d _ p _ prog h1 sub ho
      refine ⟨hs0.trans hs, _, rfl, (traversal_then_effects d sub _ hdep).1, ?_⟩
      intro e he q hq
      have := hre e (node?_of_mem_append_gl d sub _ e he q hq) q hq
      rwa [hs0.childrenOf] at this
    · simp only [LightSource.render, Option.some.injEq, Prod.mk.injEq] at hd
      obtain ⟨rfl, rfl⟩ := hd
      refine ⟨SameShape.refl _, _, rfl, ?_, ?_⟩
      · intro e he
        obtain ⟨c, _, rfl⟩ := List.mem_map.1 he
        exact le_refl _
      · intro e he q hq
        obtain ⟨c, _, rfl⟩ := List.mem_map.1 he
        simp [Event.node?] at hq

theorem renderChildren_total {Mat F : Type} [Mul Mat]
    (virt : Nat → Heap Mat F → Ptr → Mat → GLuint → RenderResult Mat F) (hv : VirtOK virt)
    (d : Nat) (self : Ptr) (M : Mat) (prog : GLuint) (h : Heap Mat F) :
    ∀ (cs : List Ptr),
      (∀ c ∈ cs, ∀ d h0 M prog, SameShape h h0 → ∃ r, virt d h0 c M prog = some r) →
      ∀ h0, SameShape h h0 →
      ∃ r, renderChildren
        (fun h1 c => virt (d + 1) h1 c (M * (h1 self).transform_matrix_) prog) cs h0 = some r := by
  intro cs
  induction cs with
  | nil =>
    intro _ h0 _
    exact ⟨(h0, []), rfl⟩
  | cons c cs ih =>
    intro hall h0 hs
    obtain ⟨⟨h1, t1⟩, hc⟩ :=
      hall c (List.mem_cons_self _ _) (d + 1) h0 (M * (h0 self).transform_matrix_) prog hs
    have hs1 : SameShape h h1 := hs.trans (hv _ _ _ _ _ _ _ hc).1
    obtain ⟨⟨h2, t2⟩, hrest⟩ :=
      ih (fun c2 hc2 => hall c2 (List.mem_cons_of_mem _ hc2)) h1 hs1
    refine ⟨(h2, t1 ++ t2), ?_⟩
    rw [renderChildren]
    simp only [hc, hrest]

theorem Object3D_render_total {Mat F : Type} [Mul Mat]
    (virt : Nat → Heap Mat F → Ptr → Mat → GLuint → RenderResult Mat F) (hv : VirtOK virt)
    (h : Heap Mat F) (p : Ptr)
    (hall : ∀ c ∈ (h p).children, ∀ d h0 M prog, SameShape h h0 →
      ∃ r, virt d h0 c M prog = some r)
    (d : Nat) (h0 : Heap Mat F) (hs : SameShape h h0) (M : Mat) (prog : GLuint) :
    ∃ r, Object3D.render virt d h0 p M prog = some r := by
  unfold Object3D.render
  rw [hs.children p]
  exact renderChildren_total virt hv d p M prog h _ hall h0 hs

theorem AbstractCamera_render_total {Mat F : Type} [Mul Mat]
    (virt : Nat → Heap Mat F → Ptr → Mat → GLuint → RenderResult Mat F) (hv : VirtOK virt)
    (h : Heap Mat F) (p : Ptr)
    (hall : ∀ c ∈ (h p).children, ∀ d h0 M prog, SameShape h h0 →
      ∃ r, virt d h0 c M prog = some r)
    (d : Nat) (h0 : Heap Mat F) (hs : SameShape h h0) (M : Mat) (prog : GLuint) :
    ∃ r, AbstractCamera.render virt d h0 p M prog = some r := by
  obtain ⟨⟨h1, t⟩, ho⟩ := Object3D_render_total virt hv h p hall d h0 hs
    (M * (h0 p).transform_matrix_) prog
  refine ⟨(h1, t ++ (cameraEffects (h1 p) M prog).map (Event.gl d)), ?_⟩
  simp only [AbstractCamera.render, ho]

theorem dispatch_total {Mat F : Type} [Mul Mat] (env : Env Mat) (f : Nat)
    (h : Heap Mat F) (p : Ptr)
    (hall : ∀ c ∈ (h p).children, ∀ d h0 M prog, SameShape h h0 →
      ∃ r, render env f d h0 c M prog = some r)
    (d : Nat) (h0 : Heap Mat F) (hs : SameShape h h0) (M : Mat) (prog : GLuint) :
    ∃ r, dispatch env f d h0 p M prog = some r := by
  have hv := render_spec (F := F) env f
  unfold dispatch
  cases hk : (h0 p).kind <;> simp only []
  · exact Object3D_render_total _ hv h p hall d h0 hs M prog
  · obtain ⟨⟨h1, t⟩, ho⟩ := Object3D_render_total _ hv h p hall d h0 hs M prog
    refine ⟨(h1, t ++ (meshEffects (h1 p) M prog).map (Event.gl d)), ?_⟩
    simp only [TriangleMesh.render, ho]
  · exact AbstractCamera_render_total _ hv h p hall d _
      (hs.trans (SameShape.set_projection h0 p _)) M prog
  · exact AbstractCamera_render_total _ hv h p hall d _
      (hs.trans (SameShape.set_projection h0 p _)) M prog
  · exact ⟨_, rfl⟩

/-- A uniform budget for a list of nodes that each have one. -/
theorem uniform_budget {Mat F : Type} [Mul Mat] (env : Env Mat) (h : Heap Mat F) :
    ∀ (cs : List Ptr),
      (∀ c ∈ cs, ∃ N, ∀ f, N ≤ f → ∀ d h0 M prog, SameShape h h0 →
        ∃ r, render env f d h0 c M prog = some r) →
      ∃ N, ∀ c ∈ cs, ∀ f, N ≤ f → ∀ d h0 M prog, SameShape h h0 →
        ∃ r, render env f d h0 c M prog = some r := by
  intro cs
  induction cs with
  | nil =>
    intro _
    exact ⟨0, fun c hc => by cases hc⟩
  | cons c cs ih =>
    intro hall
    obtain ⟨N1, h1⟩ := hall c (List.mem_cons_self _ _)
    obtain ⟨N2, h2⟩ := ih (fun c2 hc2 => hall c2 (List.mem_cons_of_mem _ hc2))
    refine ⟨max N1 N2, ?_⟩
    intro c2 hc2 f hf
    rcases List.mem_cons.1 hc2 with rfl | hc2
    · exact h1 f (le_trans (le_max_left _ _) hf)
    · exact h2 c2 hc2 f (le_trans (le_max_right _ _) hf)

/-- In an acyclic store every traversal returns once the budget is large enough. -/
theorem render_total {Mat F : Type} [Mul Mat] (env : Env Mat) (h : Heap Mat F)
    (hac : Acyclic h) (p : Ptr) :
    ∃ N, ∀ f, N ≤ f → ∀ d h0 M prog, SameShape h h0 →
      ∃ r, render env f d h0 p M prog = some r := by
  obtain ⟨rank, hrank⟩ := hac
  have key : ∀ (r : Nat) (p : Ptr), rank p ≤ r →
      ∃ N, ∀ f, N ≤ f → ∀ d h0 M prog, SameShape h h0 →
        ∃ r, render env f d h0 p M prog = some r := by
    intro r
    induction r with
    | zero =>
      intro p hp
      refine ⟨1, ?_⟩
      intro f hf d h0 M prog hs
      obtain ⟨f, rfl⟩ : ∃ g, f = g + 1 := ⟨f - 1, by omega⟩
      have hall : ∀ c ∈ (h p).children, ∀ d h0 M prog, SameShape h h0 →
          ∃ r, render env f d h0 c M prog = some r := by
        intro c hc
        have := hrank p c hc
        omega
      obtain ⟨⟨h1, body⟩, hd⟩ := dispatch_total env f h p hall d h0 hs M prog
      exact ⟨_, (render_some_iff env f d h0 p M prog h1 _).2 ⟨body, rfl, hd⟩⟩
    | succ r ih =>
      intro p hp
      obtain ⟨N, hN⟩ := uniform_budget env h (h p).children (by
        intro c hc
        have := hrank p c hc
        exact ih c (by omega))
      refine ⟨N + 1, ?_⟩
      intro f hf d h0 M prog hs
      obtain ⟨f, rfl⟩ : ∃ g, f = g + 1 := ⟨f - 1, by omega⟩
      have hall : ∀ c ∈ (h p).children, ∀ d h0 M prog, SameShape h h0 →
          ∃ r, render env f d h0 c M prog = some r :=
        fun c hc => hN c hc f (by omega)
      obtain ⟨⟨h1, body⟩, hd⟩ := dispatch_total env f h p hall d h0 hs M prog
      exact ⟨_, (render_some_iff env f d h0 p M prog h1 _).2 ⟨body, rfl, hd⟩⟩
  exact key (rank p) p (le_refl _)

theorem removeChild_result_acyclic {Mat F : Type} (h h1 : Heap Mat F) (X : Ptr)
    (hsub : ∀ n, h1 n = eraseChild (h n) X ∨ h1 n = h n) (hac : Acyclic h) : Acyclic h1 := by
  obtain ⟨rank, hrank⟩ := hac
  refine ⟨rank, ?_⟩
  intro p c hc
  rcases hsub p with e | e
  · rw [e] at hc
    exact hrank p c ((mem_eraseChild _ _ _).1 hc).1
  · rw [e] at hc
    exact hrank p c hc

theorem reach_after_removeChild {Mat F : Type} (h h1 : Heap Mat F) (R X : Ptr)
    (hvis : ∀ n, Avoid (childrenOf h) X R n → h1 n = eraseChild (h n) X) {p n : Ptr}
    (hr : Reach (childrenOf h1) p n) :
    Avoid (childrenOf h) X R p → Avoid (childrenOf h) X R n := by
  induction hr with
  | refl p => exact id
  | @step p c n hc _ ih =>
    intro hav
    have hc2 : c ∈ (h1 p).children := hc
    rw [hvis p hav] at hc2
    have hc3 := (mem_eraseChild _ _ _).1 hc2
    exact ih (hav.snoc hc3.1 hc3.2)

/-- C1: in an acyclic store and for `X ≠ R`, `R.removeChild(X)` returns, a
render traversal started at `R` on the resulting store returns, and no such
traversal invokes `render` on `X`, however many times and under however many
parents `X` occurred below `R`. -/
theorem removeChild_then_render_skips {Mat F : Type} [Mul Mat] (env : Env Mat)
    (h : Heap Mat F) (R X : Ptr) (hne : X ≠ R) (hac : Acyclic h) :
    (∃ f h1, Object3D.removeChild f h R X = some h1 ∧
      ∀ d M prog, ∃ f2 r, render env f2 d h1 R M prog = some r) ∧
    (∀ f h1, Object3D.removeChild f h R X = some h1 →
      ∀ f2 d M prog h2 tr, render env f2 d h1 R M prog = some (h2, tr) →
        ∀ e ∈ tr, e.node? ≠ some X) := by
  obtain ⟨N, h1, hrun, huniq, hvis, hrest⟩ := removeChild_result h R X hac
  have hsub : ∀ n, h1 n = eraseChild (h n) X ∨ h1 n = h n := by
    intro n
    by_cases hav : Avoid (childrenOf h) X R n
    · exact Or.inl (hvis n hav)
    · exact Or.inr (hrest n hav)
  have hac1 : Acyclic h1 := removeChild_result_acyclic h h1 X hsub hac
  constructor
  · refine ⟨N, h1, hrun N (le_refl _), ?_⟩
    intro d M prog
    obtain ⟨N2, hN2⟩ := render_total env h1 hac1 R
    exact ⟨N2, hN2 N2 (le_refl _) d h1 M prog (SameShape.refl h1)⟩
  · intro f h1b hf f2 d M prog h2 tr hr e he hX
    have e1 : h1b = h1 := huniq f h1b hf
    subst e1
    obtain ⟨_, body, rfl, _, hreach⟩ := render_spec env f2 d h1b R M prog h2 tr hr
    rcases List.mem_cons.1 he with rfl | he
    · simp only [Event.node?, Option.some.injEq] at hX
      exact hne hX.symm
    · have hr1 := hreach e he X hX
      have hav := reach_after_removeChild h h1b R X hvis hr1 (Avoid.refl R)
      exact hav.target_ne (Ne.symm hne) rfl

theorem mesh_render_shape {Mat F : Type} [Mul Mat] (env : Env Mat) (h : Heap Mat F) (p : Ptr)
    (hk : (h p).kind = Kind.triangleMesh) (f d : Nat) (M : Mat) (prog : GLuint)
    (h1 : Heap Mat F) (tr : List (Event Mat F))
    (hr : render env f d h p M prog = some (h1, tr)) :
    ∃ sub, tr = Event.call d p M prog :: (sub ++ (meshEffects (h p) M prog).map (Event.gl d)) ∧
      (∀ e ∈ sub, d + 1 ≤ e.depth) ∧
      directCalls (d + 1) sub
        = (h p).children.map (fun c => (c, M * (h p).transform_matrix_, prog)) := by
  cases f with
  | zero => simp [render] at hr
  | succ f =>
    obtain ⟨body, rfl, hd⟩ := (render_some_iff env f d h p M prog h1 _).1 hr
    unfold dispatch at hd
    simp only [hk] at hd
    obtain ⟨sub, ho, rfl⟩ := TriangleMesh_render_some _ d h p M prog h1 body hd
    obtain ⟨hs, hdep, hdc, _⟩ :=
      Object3D_render_spec _ (render_spec env f) d h p M prog h1 sub ho
    exact ⟨sub, by rw [hs.meshEffects], hdep, hdc⟩

theorem camera_render_shape {Mat F : Type} [Mul Mat] (env : Env Mat) (h : Heap Mat F) (p : Ptr)
    (hk : (h p).kind = Kind.perspectiveCamera ∨ (h p).kind = Kind.orthoCamera) (f d : Nat)
    (M : Mat) (prog : GLuint) (h1 : Heap Mat F) (tr : List (Event Mat F))
    (hr : render env f d h p M prog = some (h1, tr)) :
    ∃ sub, tr = Event.call d p M prog :: (sub ++
        [ Event.gl d (GLCall.useProgram prog),
          Event.gl d (GLCall.uniformMatrix4fv prog "V" (M * (h p).transform_matrix_)),
          Event.gl d (GLCall.uniformMatrix4fv prog "P" (h1 p).projection_transform_matrix_) ]) ∧
      (∀ e ∈ sub, d + 1 ≤ e.depth) ∧
      directCalls (d + 1) sub = (h p).children.map
        (fun c => (c, (M * (h p).transform_matrix_) * (h p).transform_matrix_, prog)) := by
  cases f with
  | zero => simp [render] at hr
  | succ f =>
    obtain ⟨body, rfl, hd⟩ := (render_some_iff env f d h p M prog h1 _).1 hr
    unfold dispatch at hd
    rcases hk with hk | hk <;> simp only [hk] at hd
    · obtain ⟨sub, ho, rfl⟩ := AbstractCamera_render_some _ d _ p M prog h1 body hd
      have hs0 := SameShape.set_projection h p
        (env.perspective (env.glfwGetWindowSize (h p).window_).1
          (env.glfwGetWindowSize (h p).window_).2)
      obtain ⟨hs, hdep, hdc, _⟩ :=
        Object3D_render_spec _ (render_spec env f) d _ p _ prog h1 sub ho
      rw [hs0.children p, hs0.transform p] at hdc
      refine ⟨sub, ?_, hdep, hdc⟩
      simp only [cameraEffects, List.map_cons, List.map_nil, (hs0.trans hs).transform p]
    · obtain ⟨sub, ho, rfl⟩ := AbstractCamera_render_some _ d _ p M prog h1 body hd
      have hs0 := SameShape.set_projection h p
        (env.ortho (env.glfwGetWindowSize (h p).window_).1
          (env.glfwGetWindowSize (h p).window_).2)
      obtain ⟨hs, hdep, hdc, _⟩ :=
        Object3D_render_spec _ (render_spec env f) d _ p _ prog h1 sub ho
      rw [hs0.children p, hs0.transform p] at hdc
      refine ⟨sub, ?_, hdep, hdc⟩
      simp only [cameraEffects, List.map_cons, List.map_nil, (hs0.trans hs).transform p]

theorem light_render_shape {Mat F : Type} [Mul Mat] (env : Env Mat) (h : Heap Mat F) (p : Ptr)
    (hk : (h p).kind = Kind.lightSource) (f d : Nat) (M : Mat) (prog : GLuint)
    (h1 : Heap Mat F) (tr : List (Event Mat F))
    (hr : render env f d h p M prog = some (h1, tr)) :
    tr = [ Event.call d p M prog,
           Event.gl d (GLCall.useProgram prog),
           Event.gl d (GLCall.uniform1f prog "lightIntensity" (h p).intensity_),
           Event.gl d (GLCall.uniform3f prog "lightColor" (h p).color_.1 (h p).color_.2.1
             (h p).color_.2.2) ] := by
  cases f with
  | zero => simp [render] at hr
  | succ f =>
    obtain ⟨body, rfl, hd⟩ := (render_some_iff env f d h p M prog h1 _).1 hr
    unfold dispatch at hd
    simp only [hk, LightSource.render, Option.some.injEq, Prod.mk.injEq] at hd
    obtain ⟨_, rfl⟩ := hd
    rfl

/-- C9, amended: a returning `render` of a mesh or camera node first runs the
base traversal, which invokes `render` on every entry of the child list in
order, and only afterwards issues the node's own GL calls (mesh: among them the
upload of `"M"` as `M * localTransform` and the indexed draw of
`elements.size()` indices; camera: the uploads of `"V"` and `"P"`).  A returning
`render` of a light node issues only its own uploads of `"lightIntensity"` and
`"lightColor"`.  In an acyclic store all these calls return. -/
theorem override_render_order {Mat F : Type} [Mul Mat] (env : Env Mat) (h : Heap Mat F)
    (p : Ptr) :
    ((h p).kind = Kind.triangleMesh → ∀ f d M prog h1 tr,
      render env f d h p M prog = some (h1, tr) →
      ∃ sub, tr = Event.call d p M prog ::
          (sub ++ (meshEffects (h p) M prog).map (Event.gl d)) ∧
        (∀ e ∈ sub, d + 1 ≤ e.depth) ∧
        (directCalls (d + 1) sub).map Prod.fst = (h p).children ∧
        GLCall.uniformMatrix4fv prog "M" (M * (h p).transform_matrix_)
          ∈ meshEffects (h p) M prog ∧
        GLCall.drawElements (h p).elements_.length ∈ meshEffects (h p) M prog) ∧
    (((h p).kind = Kind.perspectiveCamera ∨ (h p).kind = Kind.orthoCamera) →
      ∀ f d M prog h1 tr, render env f d h p M prog = some (h1, tr) →
      ∃ sub, tr = Event.call d p M prog :: (sub ++
          [ Event.gl d (GLCall.useProgram prog),
            Event.gl d (GLCall.uniformMatrix4fv prog "V" (M * (h p).transform_matrix_)),
            Event.gl d
              (GLCall.uniformMatrix4fv prog "P" (h1 p).projection_transform_matrix_) ]) ∧
        (∀ e ∈ sub, d + 1 ≤ e.depth) ∧
        (directCalls (d + 1) sub).map Prod.fst = (h p).children) ∧
    ((h p).kind = Kind.lightSource → ∀ f d M prog h1 tr,
      render env f d h p M prog = some (h1, tr) →
      tr = [ Event.call d p M prog,
             Event.gl d (GLCall.useProgram prog),
             Event.gl d (GLCall.uniform1f prog "lightIntensity" (h p).intensity_),
             Event.gl d (GLCall.uniform3f prog "lightColor" (h p).color_.1 (h p).color_.2.1
               (h p).color_.2.2) ]) ∧
    (Acyclic h → ∀ d M prog, ∃ f r, render env f d h p M prog = some r) := by
  refine ⟨?_, ?_, ?_, ?_⟩
  · intro hk f d M prog h1 tr hr
    obtain ⟨sub, htr, hdep, hdc⟩ := mesh_render_shape env h p hk f d M prog h1 tr hr
    refine ⟨sub, htr, hdep, ?_, ?_, ?_⟩
    · rw [hdc, List.map_map]
      exact List.map_id _
    · simp [meshEffects]
    · simp [meshEffects]
  · intro hk f d M prog h1 tr hr
    obtain ⟨sub, htr, hdep, hdc⟩ := camera_render_shape env h p hk f d M prog h1 tr hr
    refine ⟨sub, htr, hdep, ?_⟩
    rw [hdc, List.map_map]
    exact List.map_id _
  · intro hk f d M prog h1 tr hr
    exact light_render_shape env h p hk f d M prog h1 tr hr
  · intro hac d M prog
    obtain ⟨N, hN⟩ := render_total env h hac p
    exact ⟨N, hN N (le_refl _) d h M prog (SameShape.refl h)⟩

theorem dagHeap_acyclic : Acyclic dagHeap := by
  refine ⟨dagRank, ?_⟩
  intro p c hc
  match p, hc with
  | 0, hc =>
    simp only [dagHeap, plainNode, List.mem_cons, List.mem_singleton] at hc
    rcases hc with rfl | rfl | rfl | rfl | hc <;> first | decide | cases hc
  | 1, hc =>
    simp only [dagHeap, plainNode, List.mem_cons, List.mem_singleton] at hc
    rcases hc with rfl | hc <;> first | decide | cases hc
  | 2, hc => simp [dagHeap, plainNode] at hc
  | 3, hc =>
    simp only [dagHeap, plainNode, List.mem_cons, List.mem_singleton] at hc
    rcases hc with rfl | rfl | hc <;> first | decide | cases hc
  | n + 4, hc => simp [dagHeap, plainNode] at hc

theorem sceneHeap_acyclic : Acyclic sceneHeap := by
  refine ⟨sceneRank, ?_⟩
  intro p c hc
  match p, hc with
  | 0, hc =>
    simp only [sceneHeap, plainNode, List.mem_cons, List.mem_singleton] at hc
    rcases hc with rfl | hc <;> first | decide | cases hc
  | 1, hc =>
    simp only [sceneHeap, plainNode, List.mem_cons, List.mem_singleton] at hc
    rcases hc with rfl | hc <;> first | decide | cases hc
  | 2, hc =>
    simp only [sceneHeap, plainNode, List.mem_cons, List.mem_singleton] at hc
    rcases hc with rfl | hc <;> first | decide | cases hc
  | n + 3, hc => simp [sceneHeap, plainNode] at hc

/-- C6 (evaluation of the code): the camera of `sceneHeap` has the default view
`V` (translation by -3 along z) and one child.  Called with `M` the identity,
its `render` invokes the child with the translation by -6, that is `(M * V) * V`,
while `M * V`, uploaded as `"V"`, is the translation by -3. -/
theorem camera_child_gets_view_twice :
    (sceneHeap 0).kind = Kind.perspectiveCamera ∧
    (sceneHeap 0).transform_matrix_ = defaultView ∧
    (sceneHeap 0).children = [1] ∧
    ∃ h1 tr, render sceneEnv 4 0 sceneHeap 0 identity4 7 = some (h1, tr) ∧
      directCalls 1 tr = [(1, translateZ (-6), 7)] ∧
      ownEffects 0 tr = [ GLCall.useProgram 7,
        GLCall.uniformMatrix4fv 7 "V" (translateZ (-3)),
        GLCall.uniformMatrix4fv 7 "P" (SymMat.perspective 720 480) ] ∧
      identity4 * defaultView = translateZ (-3) ∧
      (identity4 * defaultView) * defaultView = translateZ (-6) ∧
      translateZ (-6) ≠ identity4 * defaultView :=
  ⟨rfl, rfl, rfl, _, _, rfl, by decide, by decide, by decide, by decide, by decide⟩

/-- C9, counterexample: node 2 of `sceneHeap` is a light with the child 3; its
`render` returns a trace with the light's own uploads only, and `render` is not
invoked on the child. -/
theorem light_render_skips_children :
    (sceneHeap 2).kind = Kind.lightSource ∧
    (sceneHeap 2).children = [3] ∧
    ∃ h1 tr, render sceneEnv 2 0 sceneHeap 2 identity4 7 = some (h1, tr) ∧
      directCalls 1 tr = [] ∧
      (directCalls 1 tr).map Prod.fst ≠ (sceneHeap 2).children ∧
      ∀ e ∈ tr, e.node? ≠ some 3 :=
  ⟨rfl, rfl, _, _, rfl, by decide, by decide, by decide⟩

theorem loadShader_keeps_existing_entry_witness :
    ((registryP1.loadShader "P1" 9).getShader "P1").2 = 3 ∧
    ((((registryP1.getShader "P2").1).loadShader "P2" 9).getShader "P2").2 = 0 ∧
    ((registryP1.loadShader "P2" 9).getShader "P2").2 = 9 :=
  ⟨(loadShader_keeps_existing_entry registryP1 "P1" 9).1 3 (by decide),
   (loadShader_keeps_existing_entry registryP1 "P2" 9).2.1 (by decide),
   (loadShader_keeps_existing_entry registryP1 "P2" 9).2.2 (by decide)⟩

theorem getShader_single_line_witness :
    Char.ofNat 10 ∉ "P1".data ∧ Char.ofNat 10 ∉ "missing".data ∧
    ((registryP1.getShader "P1").2 = 3 ∧ (registryP1.getShader "P1").1.cout = registryP1.cout) ∧
    ((registryP1.getShader "missing").2 = 0 ∧
      ∃ record line, (registryP1.getShader "missing").1.cout = registryP1.cout ++ [record] ∧
        recordLines record = [line] ∧ "missing".data <:+: line) :=
  ⟨by decide, by decide,
   (getShader_single_line registryP1 "P1" (by decide)).1 3 (by decide) (by decide),
   (getShader_single_line registryP1 "missing" (by decide)).2 (by decide)⟩

theorem initialize_result_witness :
    ( SimpleGraphicsEngine.initialize
      { glfwInit := 0, glfwCreateWindow := 0, glewInit := 0 }).1 = true ∧
    ( SimpleGraphicsEngine.initialize
      { glfwInit := 1, glfwCreateWindow := 0, glewInit := 0 }).1 = false ∧
    ( SimpleGraphicsEngine.initialize
      { glfwInit := 1, glfwCreateWindow := 1, glewInit := 1 }).1 = false ∧
    ( SimpleGraphicsEngine.initialize
      { glfwInit := 1, glfwCreateWindow := 1, glewInit := 0 }).1 = true :=
  ⟨(initialize_result { glfwInit := 0, glfwCreateWindow := 0, glewInit := 0 }).1 rfl,
   (initialize_result { glfwInit := 1, glfwCreateWindow := 0, glewInit := 0 }).2.1
      (by decide) rfl,
   (initialize_result { glfwInit := 1, glfwCreateWindow := 1, glewInit := 1 }).2.2.1
      (by decide) (by decide) (by decide),
   (initialize_result { glfwInit := 1, glfwCreateWindow := 1, glewInit := 0 }).2.2.2
      (by decide) (by decide) rfl⟩

theorem useFBO_viewport_witness :
    (FBO.useFBO (FBO.useFBO windowState (some target256) none none) none none none).gl.viewport
      = (0, 0, 720, 480) :=
  ((useFBO_viewport windowState).2.2.2.2 720 480 rfl rfl (by decide) (by decide) (by decide)
    (by decide)).1 target256 none none none none (by decide)

theorem useFBO_cache_witness :
    ((FBO.useFBO windowState (some target256) none none).lastw = 720 ∧
      (FBO.useFBO windowState (some target256) none none).lasth = 480) ∧
    ((FBO.useFBO emptyViewportState none none none).lastw = emptyViewportState.lastw ∧
      (FBO.useFBO emptyViewportState none none none).lasth = emptyViewportState.lasth) ∧
    ((FBO.useFBO offscreenState none none none).lastw = offscreenState.lastw ∧
      (FBO.useFBO offscreenState none none none).lasth = offscreenState.lasth) :=
  ⟨((useFBO_cache windowState).1 720 480 rfl rfl (by decide) (by decide) (by decide)
      (by decide)).1 (some target256) none none,
   ((useFBO_cache emptyViewportState).2.1 0 0 rfl rfl (by decide) (by decide) (by decide)
      (by decide) (by decide)).1 none none none,
   ((useFBO_cache offscreenState).2.2 (by decide)).1 none none none⟩

theorem removeChild_effect_witness :
    (1 : Ptr) ≠ 0 ∧ Acyclic dagHeap ∧
    ∃ (N : Nat) (h1 : Heap SymMat Int),
      (∀ f, N ≤ f → Object3D.removeChild f dagHeap 0 1 = some h1) ∧
      (∀ f h2, Object3D.removeChild f dagHeap 0 1 = some h2 → h2 = h1) ∧
      (∀ n, Reach (childrenOf dagHeap) 0 n →
        h1 n = { dagHeap n with children := (dagHeap n).children.filter (fun c => c != 1) }) ∧
      (∀ n, ¬ Reach (childrenOf dagHeap) 0 n → h1 n = dagHeap n) ∧
      h1 1 = dagHeap 1 :=
  ⟨by decide, dagHeap_acyclic, removeChild_effect dagHeap 0 1 (by decide) dagHeap_acyclic⟩

theorem removeChild_then_render_skips_witness :
    (1 : Ptr) ≠ 0 ∧ Acyclic dagHeap ∧
    ∃ h1 h2 tr, Object3D.removeChild 7 dagHeap 0 1 = some h1 ∧
      render sceneEnv 4 0 h1 0 identity4 7 = some (h2, tr) ∧
      ∀ e ∈ tr, e.node? ≠ some 1 :=
  ⟨by decide, dagHeap_acyclic, _, _, _, rfl, rfl,
    (removeChild_then_render_skips sceneEnv dagHeap 0 1 (by decide) dagHeap_acyclic).2
      7 _ rfl 4 0 identity4 7 _ _ rfl⟩

theorem override_render_order_witness :
    (sceneHeap 1).kind = Kind.triangleMesh ∧
    (sceneHeap 0).kind = Kind.perspectiveCamera ∧
    (sceneHeap 2).kind = Kind.lightSource ∧
    Acyclic sceneHeap ∧
    (∃ h1 tr, render sceneEnv 3 0 sceneHeap 1 identity4 7 = some (h1, tr) ∧
      ∃ sub, tr = Event.call 0 1 identity4 7 ::
          (sub ++ (meshEffects (sceneHeap 1) identity4 7).map (Event.gl 0)) ∧
        (∀ e ∈ sub, 0 + 1 ≤ e.depth) ∧
        (directCalls (0 + 1) sub).map Prod.fst = [2] ∧
        GLCall.uniformMatrix4fv 7 "M" (translateZ 2) ∈ meshEffects (sceneHeap 1) identity4 7 ∧
        GLCall.drawElements 3 ∈ meshEffects (sceneHeap 1) identity4 7) ∧
    (∃ h1 tr, render sceneEnv 4 0 sceneHeap 0 identity4 7 = some (h1, tr) ∧
      ∃ sub, tr = Event.call 0 0 identity4 7 :: (sub ++
          [ Event.gl 0 (GLCall.useProgram 7),
            Event.gl 0 (GLCall.uniformMatrix4fv 7 "V" (translateZ (-3))),
            Event.gl 0 (GLCall.uniformMatrix4fv 7 "P" (h1 0).projection_transform_matrix_) ]) ∧
        (∀ e ∈ sub, 0 + 1 ≤ e.depth) ∧
        (directCalls (0 + 1) sub).map Prod.fst = [1]) ∧
    (∃ h1 tr, render sceneEnv 2 0 sceneHeap 2 identity4 7 = some (h1, tr) ∧
      tr = [ Event.call 0 2 identity4 7,
             Event.gl 0 (GLCall.useProgram 7),
             Event.gl 0 (GLCall.uniform1f 7 "lightIntensity" 5),
             Event.gl 0 (GLCall.uniform3f 7 "lightColor" 1 1 1) ]) ∧
    (∀ d M prog, ∃ f r, render sceneEnv f d sceneHeap 0 M prog = some r) :=
  ⟨rfl, rfl, rfl, sceneHeap_acyclic,
   ⟨_, _, rfl, (override_render_order sceneEnv sceneHeap 1).1 rfl 3 0 identity4 7 _ _ rfl⟩,
   ⟨_, _, rfl,
     (override_render_order sceneEnv sceneHeap 0).2.1 (Or.inl rfl) 4 0 identity4 7 _ _ rfl⟩,
   ⟨_, _, rfl, (override_render_order sceneEnv sceneHeap 2).2.2.1 rfl 2 0 identity4 7 _ _ rfl⟩,
   (override_render_order sceneEnv sceneHeap 0).2.2.2 sceneHeap_acyclic⟩

end SGE
